import Mathlib

/-!
# Root finders of `src/roots/roots.cpp`

The four functions `bisection`, `regula_falsi`, `newton_raphson` and `secant` work on
C++ `double`s.  Two embeddings of `double` are used here.

* `B64` is the binary64 format as the machine has it: two zeros, subnormal numbers,
  infinities and `NaN`, every operation rounded to the nearest value (ties to even) and
  overflowing to an infinity, and `tolerance` the `double` nearest to `10^-6`.  The two
  bracketing methods are embedded over it (`B64.bisection`, `B64.regula_falsi`), and
  what depends on rounding, underflow or overflow is decided there.
* `Dbl α` is exact arithmetic: the finite values are the elements of a linearly ordered
  field `α`, and `+inf`, `-inf`, `NaN` are kept with the rules the format gives them.
  It has no rounding, no underflow and no overflow, one zero (a nonzero finite number
  divided by zero is the infinity of the sign of the numerator), and `tolerance` is
  `10^-6` itself.  It carries the statements made in exact arithmetic (continuous and
  affine functions, brackets that halve) and the statements on the structure of the
  loops, whose proofs use no property of the arithmetic.

Every `while (true)` loop is a function with a fuel argument counting the
iterations it may still run; `none` says that the loop is still running when
the fuel is used up.  A call returns when some fuel gives `some _`.
-/

namespace Roots

/-- Values of a `double` in exact arithmetic: a finite number, `+inf`, `-inf` or
`NaN`. -/
inductive Dbl (α : Type) where
  | fin (x : α)
  | pinf
  | ninf
  | nan
  deriving DecidableEq, Repr

namespace Dbl

variable {α : Type} [LinearOrderedField α]

/-- Unary minus. -/
def neg : Dbl α → Dbl α
  | fin x => fin (-x)
  | pinf => ninf
  | ninf => pinf
  | nan => nan

/-- Addition, exact on finite values: `inf + (-inf)` is `NaN`. -/
def add : Dbl α → Dbl α → Dbl α
  | nan, _ => nan
  | _, nan => nan
  | fin x, fin y => fin (x + y)
  | fin _, pinf => pinf
  | fin _, ninf => ninf
  | pinf, ninf => nan
  | pinf, _ => pinf
  | ninf, pinf => nan
  | ninf, _ => ninf

/-- Subtraction `x - y`. -/
def sub (x y : Dbl α) : Dbl α := add x (neg y)

/-- The infinity with the sign of `x`, and `NaN` for `x = 0`. -/
def infOfSign (x : α) : Dbl α :=
  if 0 < x then pinf else if x < 0 then ninf else nan

/-- Multiplication, exact on finite values: `0 * inf` is `NaN`. -/
def mul : Dbl α → Dbl α → Dbl α
  | nan, _ => nan
  | _, nan => nan
  | fin x, fin y => fin (x * y)
  | fin x, pinf => infOfSign x
  | fin x, ninf => infOfSign (-x)
  | pinf, fin y => infOfSign y
  | ninf, fin y => infOfSign (-y)
  | pinf, pinf => pinf
  | pinf, ninf => ninf
  | ninf, pinf => ninf
  | ninf, ninf => pinf

/-- Division, exact on finite values: `x / 0` is the infinity of the sign of `x` for
`x ≠ 0` (there is one zero), and `0 / 0`, `inf / inf` are `NaN`. -/
def div : Dbl α → Dbl α → Dbl α
  | nan, _ => nan
  | _, nan => nan
  | fin x, fin y => if y = 0 then infOfSign x else fin (x / y)
  | fin _, pinf => fin 0
  | fin _, ninf => fin 0
  | pinf, fin y => if y < 0 then ninf else pinf
  | ninf, fin y => if y < 0 then pinf else ninf
  | pinf, pinf => nan
  | pinf, ninf => nan
  | ninf, pinf => nan
  | ninf, ninf => nan

/-- The function `std::abs`. -/
def abs : Dbl α → Dbl α
  | fin x => fin |x|
  | pinf => pinf
  | ninf => pinf
  | nan => nan

/-- The comparison `x < y`: false as soon as one side is `NaN`. -/
def lt : Dbl α → Dbl α → Bool
  | nan, _ => false
  | _, nan => false
  | fin x, fin y => decide (x < y)
  | fin _, pinf => true
  | fin _, ninf => false
  | pinf, _ => false
  | ninf, ninf => false
  | ninf, _ => true

/-- The comparison `x > y`. -/
def gt (x y : Dbl α) : Bool := lt y x

/-- The comparison `x >= y`: false as soon as one side is `NaN`. -/
def ge : Dbl α → Dbl α → Bool
  | nan, _ => false
  | _, nan => false
  | fin x, fin y => decide (y ≤ x)
  | fin _, pinf => false
  | fin _, ninf => true
  | pinf, _ => true
  | ninf, ninf => true
  | ninf, _ => false

instance : Neg (Dbl α) := ⟨neg⟩
instance : Add (Dbl α) := ⟨add⟩
instance : Sub (Dbl α) := ⟨sub⟩
instance : Mul (Dbl α) := ⟨mul⟩
instance : Div (Dbl α) := ⟨div⟩

end Dbl

open Dbl

variable {α : Type} [LinearOrderedField α]

/-- What a call hands back: `true` with the value written to `*root`, or `false`
(nothing is written to `*root`). -/
inductive Outcome (α : Type) where
  | success (root : Dbl α)
  | failure
  deriving DecidableEq, Repr

/-- The constant `tolerance = 1e-6` of each of the four functions, in exact arithmetic:
the number `10^-6` itself (the `double` is `B64.tolerance`). -/
def tolerance : Dbl α := fin (1 / 1000000)

/-- The loop of `bisection` (lines 16-29), run for at most `fuel` iterations. -/
def bisectionLoop (f : Dbl α → Dbl α) : Nat → Dbl α → Dbl α → Option (Outcome α)
  | 0, _, _ => none
  | fuel + 1, a, b =>
    let c := (a + b) / fin 2
    let result := f c
    if Dbl.lt (Dbl.abs result) tolerance then some (Outcome.success c)
    else if Dbl.lt (f a * result) (fin 0) then bisectionLoop f fuel a c
    else bisectionLoop f fuel c b

/-- The function `bisection` (lines 9-30). -/
def bisection (fuel : Nat) (f : Dbl α → Dbl α) (a b : Dbl α) : Option (Outcome α) :=
  if Dbl.ge (f a * f b) (fin 0) then some Outcome.failure
  else bisectionLoop f fuel a b

/-- The loop of `regula_falsi` (lines 46-59), run for at most `fuel` iterations. -/
def regulaFalsiLoop (f : Dbl α → Dbl α) : Nat → Dbl α → Dbl α → Option (Outcome α)
  | 0, _, _ => none
  | fuel + 1, a, b =>
    let c := a - (f a * (b - a)) / (f b - f a)
    let result := f c
    if Dbl.lt (Dbl.abs result) tolerance then some (Outcome.success c)
    else if Dbl.lt (f a * result) (fin 0) then regulaFalsiLoop f fuel a c
    else regulaFalsiLoop f fuel c b

/-- The function `regula_falsi` (lines 39-60). -/
def regula_falsi (fuel : Nat) (f : Dbl α → Dbl α) (a b : Dbl α) : Option (Outcome α) :=
  if Dbl.ge (f a * f b) (fin 0) then some Outcome.failure
  else regulaFalsiLoop f fuel a b

/-- The function `newton_raphson` (lines 69-87), its loop run for at most `fuel`
iterations. -/
def newton_raphson (f g : Dbl α → Dbl α) (a b : Dbl α) : Nat → Dbl α → Option (Outcome α)
  | 0, _ => none
  | fuel + 1, c =>
    let result := c - f c / g c
    if Dbl.lt result a || Dbl.gt result b then some Outcome.failure
    else if Dbl.lt (Dbl.abs (c - result)) tolerance then some (Outcome.success result)
    else newton_raphson f g a b fuel result

/-- The loop of `secant` (lines 100-113), run for at most `fuel` iterations. -/
def secantLoop (f : Dbl α → Dbl α) (a b : Dbl α) : Nat → Dbl α → Dbl α → Option (Outcome α)
  | 0, _, _ => none
  | fuel + 1, c, d =>
    let result := d - f d * (d - c) / (f d - f c)
    if Dbl.lt result a || Dbl.gt result b then some Outcome.failure
    else if Dbl.lt (Dbl.abs (result - d)) tolerance then some (Outcome.success result)
    else secantLoop f a b fuel d result

/-- The function `secant` (lines 95-114). -/
def secant (fuel : Nat) (f : Dbl α → Dbl α) (a b c : Dbl α) : Option (Outcome α) :=
  secantLoop f a b fuel c (c + tolerance)

/-! ## The sequences the specification describes the two open methods by -/

/-- The range test `(result < a) | (result > b)` of `newton_raphson` and `secant`:
the value lies outside `[a, b]`. -/
def outside (a b x : Dbl α) : Bool := Dbl.lt x a || Dbl.gt x b

/-- The Newton sequence of the specification: `x_0 = c` and
`x_{n+1} = x_n - f(x_n)/g(x_n)`. -/
def newtonSeq (f g : Dbl α → Dbl α) (c : Dbl α) : Nat → Dbl α
  | 0 => c
  | n + 1 => newtonSeq f g c n - f (newtonSeq f g c n) / g (newtonSeq f g c n)

/-- The stopping condition of the specification at index `n`: `x_n` lies outside
`[a, b]` or `|x_{n-1} - x_n| < 1e-6`. -/
def newtonStop (f g : Dbl α → Dbl α) (a b c : Dbl α) (n : Nat) : Bool :=
  outside a b (newtonSeq f g c n) ||
    Dbl.lt (Dbl.abs (newtonSeq f g c (n - 1) - newtonSeq f g c n)) tolerance

/-- What the specification says is returned when the iteration stops at index `n`:
failure if `x_n` lies outside `[a, b]` (this test comes first), success with root
`x_n` otherwise. -/
def newtonResult (f g : Dbl α → Dbl α) (a b c : Dbl α) (n : Nat) : Outcome α :=
  if outside a b (newtonSeq f g c n) then Outcome.failure
  else Outcome.success (newtonSeq f g c n)

/-- The secant sequence started at the two points `x0`, `x1`:
`x_{n+2} = x_{n+1} - f(x_{n+1})*(x_{n+1} - x_n)/(f(x_{n+1}) - f(x_n))`. -/
def secantSeqFrom (f : Dbl α → Dbl α) (x0 x1 : Dbl α) : Nat → Dbl α
  | 0 => x0
  | 1 => x1
  | n + 2 =>
    secantSeqFrom f x0 x1 (n + 1) -
      f (secantSeqFrom f x0 x1 (n + 1)) *
        (secantSeqFrom f x0 x1 (n + 1) - secantSeqFrom f x0 x1 n) /
        (f (secantSeqFrom f x0 x1 (n + 1)) - f (secantSeqFrom f x0 x1 n))

/-- The secant sequence of the specification: `x_0 = c`, `x_1 = c + 1e-6`. -/
def secantSeq (f : Dbl α → Dbl α) (c : Dbl α) : Nat → Dbl α :=
  secantSeqFrom f c (c + tolerance)

/-- The stopping condition at index `n` of a secant sequence started at `x0`, `x1`:
`x_n` lies outside `[a, b]` or `|x_n - x_{n-1}| < 1e-6`. -/
def secantStopFrom (f : Dbl α → Dbl α) (a b x0 x1 : Dbl α) (n : Nat) : Bool :=
  outside a b (secantSeqFrom f x0 x1 n) ||
    Dbl.lt (Dbl.abs (secantSeqFrom f x0 x1 n - secantSeqFrom f x0 x1 (n - 1))) tolerance

/-- The stopping condition of the specification at index `n`: `x_n` lies outside
`[a, b]` or `|x_n - x_{n-1}| < 1e-6`. -/
def secantStop (f : Dbl α → Dbl α) (a b c : Dbl α) (n : Nat) : Bool :=
  secantStopFrom f a b c (c + tolerance) n

/-- What is returned when a secant sequence started at `x0`, `x1` stops at index `n`:
failure if `x_n` lies outside `[a, b]` (this test comes first), success with root
`x_n` otherwise. -/
def secantResultFrom (f : Dbl α → Dbl α) (a b x0 x1 : Dbl α) (n : Nat) : Outcome α :=
  if outside a b (secantSeqFrom f x0 x1 n) then Outcome.failure
  else Outcome.success (secantSeqFrom f x0 x1 n)

/-- What the specification says is returned when the iteration stops at index `n`. -/
def secantResult (f : Dbl α → Dbl α) (a b c : Dbl α) (n : Nat) : Outcome α :=
  secantResultFrom f a b c (c + tolerance) n

/-! ## The brackets of bisection -/

/-- The update of the bracket at the end of an iteration of `bisection` (lines 23-28):
`b = c` if `f(a) * f(c) < 0`, else `a = c`, for the midpoint `c = (a + b)/2`. -/
def bisectionUpdate (f : Dbl α → Dbl α) (p : Dbl α × Dbl α) : Dbl α × Dbl α :=
  if Dbl.lt (f p.1 * f ((p.1 + p.2) / fin 2)) (fin 0) then (p.1, (p.1 + p.2) / fin 2)
  else ((p.1 + p.2) / fin 2, p.2)

/-- The bracket after `n` iterations that did not return. -/
def bisectionBracket (f : Dbl α → Dbl α) (a b : Dbl α) (n : Nat) : Dbl α × Dbl α :=
  (bisectionUpdate f)^[n] (a, b)

/-- The midpoint computed by iteration `n` (counted from 0) of `bisection`, if the
iterations before it did not return. -/
def bisectionMid (f : Dbl α → Dbl α) (a b : Dbl α) (n : Nat) : Dbl α :=
  ((bisectionBracket f a b n).1 + (bisectionBracket f a b n).2) / fin 2

/-- The step function `f(x) = -1` for `x <= 0` and `f(x) = 1` for `x > 0`. -/
def stepFunction (x : Dbl α) : Dbl α :=
  if Dbl.ge (fin 0) x then fin (-1) else fin 1

/-! ## The brackets of regula falsi -/

/-- The update of the bracket at the end of an iteration of `regula_falsi` (lines 53-58):
`b = c` if `f(a) * f(c) < 0`, else `a = c`, for `c = a - f(a)*(b - a)/(f(b) - f(a))`. -/
def regulaFalsiUpdate (f : Dbl α → Dbl α) (p : Dbl α × Dbl α) : Dbl α × Dbl α :=
  if Dbl.lt (f p.1 * f (p.1 - (f p.1 * (p.2 - p.1)) / (f p.2 - f p.1))) (fin 0) then
    (p.1, p.1 - (f p.1 * (p.2 - p.1)) / (f p.2 - f p.1))
  else (p.1 - (f p.1 * (p.2 - p.1)) / (f p.2 - f p.1), p.2)

/-- The bracket of `regula_falsi` after `n` iterations that did not return. -/
def regulaFalsiBracket (f : Dbl α → Dbl α) (a b : Dbl α) (n : Nat) : Dbl α × Dbl α :=
  (regulaFalsiUpdate f)^[n] (a, b)

/-- The point `c` computed by iteration `n` (counted from 0) of `regula_falsi`, if the
iterations before it did not return. -/
def regulaFalsiPoint (f : Dbl α → Dbl α) (a b : Dbl α) (n : Nat) : Dbl α :=
  (regulaFalsiBracket f a b n).1 -
    (f (regulaFalsiBracket f a b n).1 *
      ((regulaFalsiBracket f a b n).2 - (regulaFalsiBracket f a b n).1)) /
    (f (regulaFalsiBracket f a b n).2 - f (regulaFalsiBracket f a b n).1)

/-! ## The binary64 format

`B64` is the `double` of the source as the machine has it: the binary64 format with
its two zeros, subnormal numbers, infinities and `NaN`, every operation rounded to the
nearest value (ties to the even significand) and overflowing to an infinity.  The
finite value `fin neg m e` is `(-1)^neg * m * 2^(e - 1074)`, with `m < 2^53`, with
`e ≤ 2045`, and with `e = 0` when `m < 2^52`. -/

/-- Values of a binary64 `double`. -/
inductive B64 where
  | nan
  | inf (neg : Bool)
  | fin (neg : Bool) (m : Nat) (e : Nat)
  deriving DecidableEq, Repr

namespace B64

/-- Binary search for the position of the leading bit. -/
def log2Aux (n : Nat) : Nat → Nat → Nat
  | 0, acc => acc
  | i + 1, acc =>
    if 2 ^ (acc + 2 ^ i) ≤ n then log2Aux n i (acc + 2 ^ i) else log2Aux n i acc

/-- The position of the leading bit of `n < 2^8192` (0 for `n = 0`). -/
def log2 (n : Nat) : Nat := log2Aux n 13 0

/-- The binary64 value nearest to `(-1)^neg * (P / Q) * 2^-1074`, ties to the even
significand, an infinity from `2^1024 - 2^970` on. -/
def round (neg : Bool) (P Q : Nat) : B64 :=
  let k1 := (log2 P - log2 Q) - 52
  let k := if 0 < k1 ∧ P < Q * 2 ^ (k1 + 52) then k1 - 1 else k1
  let D := Q * 2 ^ k
  let m0 := P / D
  let r := P % D
  let m := if D < 2 * r ∨ (2 * r = D ∧ m0 % 2 = 1) then m0 + 1 else m0
  if m = 2 ^ 53 then (if 2045 ≤ k then inf neg else fin neg (2 ^ 52) (k + 1))
  else if 2045 < k then inf neg else fin neg m k

/-- Unary minus. -/
def neg : B64 → B64
  | nan => nan
  | inf s => inf (!s)
  | fin s m e => fin (!s) m e

/-- The function `std::abs`. -/
def abs : B64 → B64
  | nan => nan
  | inf _ => inf false
  | fin _ m e => fin false m e

/-- Addition, rounded; `x + (-x)` is `+0`. -/
def add : B64 → B64 → B64
  | nan, _ => nan
  | _, nan => nan
  | inf s, inf t => if s = t then inf s else nan
  | inf s, fin _ _ _ => inf s
  | fin _ _ _, inf t => inf t
  | fin s m e, fin t n d =>
    if s = t then round s (m * 2 ^ e + n * 2 ^ d) 1
    else if n * 2 ^ d < m * 2 ^ e then round s (m * 2 ^ e - n * 2 ^ d) 1
    else if m * 2 ^ e < n * 2 ^ d then round t (n * 2 ^ d - m * 2 ^ e) 1
    else fin false 0 0

/-- Subtraction `x - y`, rounded. -/
def sub (x y : B64) : B64 := add x (neg y)

/-- Multiplication, rounded; `0 * inf` is `NaN`. -/
def mul : B64 → B64 → B64
  | nan, _ => nan
  | _, nan => nan
  | inf s, inf t => inf (xor s t)
  | inf s, fin t n _ => if n = 0 then nan else inf (xor s t)
  | fin s m _, inf t => if m = 0 then nan else inf (xor s t)
  | fin s m e, fin t n d => round (xor s t) (m * 2 ^ e * (n * 2 ^ d)) (2 ^ 1074)

/-- Division, rounded; `x / 0` is an infinity for `x ≠ 0`, with the sign of `x` times
the sign of the zero, and `0 / 0`, `inf / inf` are `NaN`. -/
def div : B64 → B64 → B64
  | nan, _ => nan
  | _, nan => nan
  | inf _, inf _ => nan
  | inf s, fin t _ _ => inf (xor s t)
  | fin s _ _, inf t => fin (xor s t) 0 0
  | fin s m e, fin t n d =>
    if n = 0 then (if m = 0 then nan else inf (xor s t))
    else round (xor s t) (m * 2 ^ e * 2 ^ 1074) (n * 2 ^ d)

/-- The comparison `x < y`: false as soon as one side is `NaN`; `-0` and `+0` are
equal. -/
def lt : B64 → B64 → Bool
  | nan, _ => false
  | _, nan => false
  | inf s, inf t => s && !t
  | inf s, fin _ _ _ => s
  | fin _ _ _, inf t => !t
  | fin s m e, fin t n d =>
    if s then (if t then decide (n * 2 ^ d < m * 2 ^ e) else decide (m ≠ 0 ∨ n ≠ 0))
    else (if t then false else decide (m * 2 ^ e < n * 2 ^ d))

/-- The comparison `x > y`. -/
def gt (x y : B64) : Bool := lt y x

/-- The comparison `x >= y`: false as soon as one side is `NaN`. -/
def ge : B64 → B64 → Bool
  | nan, _ => false
  | _, nan => false
  | x, y => !(lt x y)

/-- The `double` of a natural number, such as the `0` and the `2` of the source. -/
def ofNat (n : Nat) : B64 := round false (n * 2 ^ 1074) 1

/-- The constant `tolerance = 1e-6`: the binary64 value nearest to `10^-6`, which is
`4722366482869645 * 2^-72`. -/
def tolerance : B64 := round false (2 ^ 1074) 1000000

/-- What a call hands back: `true` with the value written to `*root`, or `false`. -/
inductive Outcome where
  | success (root : B64)
  | failure
  deriving DecidableEq, Repr

/-- The loop of `bisection` (lines 16-29) on binary64, run for at most `fuel`
iterations. -/
def bisectionLoop (f : B64 → B64) : Nat → B64 → B64 → Option Outcome
  | 0, _, _ => none
  | fuel + 1, a, b =>
    let c := div (add a b) (ofNat 2)
    let result := f c
    if lt (abs result) tolerance then some (Outcome.success c)
    else if lt (mul (f a) result) (ofNat 0) then bisectionLoop f fuel a c
    else bisectionLoop f fuel c b

/-- The function `bisection` (lines 9-30) on binary64. -/
def bisection (fuel : Nat) (f : B64 → B64) (a b : B64) : Option Outcome :=
  if ge (mul (f a) (f b)) (ofNat 0) then some Outcome.failure
  else bisectionLoop f fuel a b

/-- The loop of `regula_falsi` (lines 46-59) on binary64, run for at most `fuel`
iterations. -/
def regulaFalsiLoop (f : B64 → B64) : Nat → B64 → B64 → Option Outcome
  | 0, _, _ => none
  | fuel + 1, a, b =>
    let c := sub a (div (mul (f a) (sub b a)) (sub (f b) (f a)))
    let result := f c
    if lt (abs result) tolerance then some (Outcome.success c)
    else if lt (mul (f a) result) (ofNat 0) then regulaFalsiLoop f fuel a c
    else regulaFalsiLoop f fuel c b

/-- The function `regula_falsi` (lines 39-60) on binary64. -/
def regula_falsi (fuel : Nat) (f : B64 → B64) (a b : B64) : Option Outcome :=
  if ge (mul (f a) (f b)) (ofNat 0) then some Outcome.failure
  else regulaFalsiLoop f fuel a b

/-- The midpoint `c = (a + b)/2` of an iteration of `bisection`. -/
def bisectionPoint (p : B64 × B64) : B64 := div (add p.1 p.2) (ofNat 2)

/-- The update of the bracket at the end of an iteration of `bisection` (lines 23-28). -/
def bisectionUpdate (f : B64 → B64) (p : B64 × B64) : B64 × B64 :=
  if lt (mul (f p.1) (f (bisectionPoint p))) (ofNat 0) then (p.1, bisectionPoint p)
  else (bisectionPoint p, p.2)

/-- The point `c = a - f(a)*(b - a)/(f(b) - f(a))` of an iteration of `regula_falsi`. -/
def regulaFalsiPoint (f : B64 → B64) (p : B64 × B64) : B64 :=
  sub p.1 (div (mul (f p.1) (sub p.2 p.1)) (sub (f p.2) (f p.1)))

/-- The update of the bracket at the end of an iteration of `regula_falsi` (lines
53-58). -/
def regulaFalsiUpdate (f : B64 → B64) (p : B64 × B64) : B64 × B64 :=
  if lt (mul (f p.1) (f (regulaFalsiPoint f p))) (ofNat 0) then (p.1, regulaFalsiPoint f p)
  else (regulaFalsiPoint f p, p.2)

/-- The function `f(x) = 1e12 * (x*x - 2)`, as binary64 computes it. -/
def steepSquare (x : B64) : B64 := mul (ofNat 1000000000000) (sub (mul x x) (ofNat 2))

/-- The function `f(x) = (x - 1) * 2^40 - 2^-24`, as binary64 computes it. -/
def shiftedLine (x : B64) : B64 :=
  sub (mul (sub x (ofNat 1)) (ofNat 1099511627776)) (div (ofNat 1) (ofNat 16777216))

/-- The number `1 + 2^-52`, the `double` after 1. -/
def onePlusEps : B64 := add (ofNat 1) (div (ofNat 1) (ofNat 4503599627370496))

end B64

/-! ## Arithmetic and comparison on finite values -/

namespace Dbl

@[simp] theorem fin_add_fin (x y : α) : (fin x + fin y : Dbl α) = fin (x + y) := rfl

@[simp] theorem fin_sub_fin (x y : α) : (fin x - fin y : Dbl α) = fin (x - y) := by
  show Dbl.add (fin x) (Dbl.neg (fin y)) = fin (x - y)
  simp [Dbl.add, Dbl.neg, sub_eq_add_neg]

@[simp] theorem fin_mul_fin (x y : α) : (fin x * fin y : Dbl α) = fin (x * y) := rfl

theorem fin_div_fin (x y : α) :
    (fin x / fin y : Dbl α) = if y = 0 then infOfSign x else fin (x / y) := rfl

@[simp] theorem fin_div_fin_of_ne (x : α) {y : α} (hy : y ≠ 0) :
    (fin x / fin y : Dbl α) = fin (x / y) := by
  rw [fin_div_fin, if_neg hy]

@[simp] theorem abs_fin (x : α) : Dbl.abs (fin x) = fin |x| := rfl

@[simp] theorem lt_fin_fin (x y : α) : Dbl.lt (fin x) (fin y) = decide (x < y) := rfl

@[simp] theorem ge_fin_fin (x y : α) : Dbl.ge (fin x) (fin y) = decide (y ≤ x) := rfl

@[simp] theorem gt_fin_fin (x y : α) : Dbl.gt (fin x) (fin y) = decide (y < x) := rfl

@[simp] theorem lt_nan_left (y : Dbl α) : Dbl.lt nan y = false := by
  cases y <;> rfl

@[simp] theorem lt_nan_right (x : Dbl α) : Dbl.lt x nan = false := by
  cases x <;> rfl

@[simp] theorem gt_nan_left (y : Dbl α) : Dbl.gt nan y = false := lt_nan_right y

@[simp] theorem nan_sub (y : Dbl α) : (nan - y : Dbl α) = nan := by
  cases y <;> rfl

@[simp] theorem sub_nan (x : Dbl α) : (x - nan : Dbl α) = nan := by
  cases x <;> rfl

@[simp] theorem nan_add (y : Dbl α) : (nan + y : Dbl α) = nan := by
  cases y <;> rfl

@[simp] theorem abs_nan : Dbl.abs (nan : Dbl α) = nan := rfl

/-- A product that compares `>= 0` does not compare `< 0`. -/
theorem lt_zero_eq_false_of_ge (x : Dbl α) (h : Dbl.ge x (fin 0) = true) :
    Dbl.lt x (fin 0) = false := by
  cases x <;> simp_all [Dbl.ge, Dbl.lt]

/-- A product that compares `< 0` does not compare `>= 0`. -/
theorem ge_zero_eq_false_of_lt (x : Dbl α) (h : Dbl.lt x (fin 0) = true) :
    Dbl.ge x (fin 0) = false := by
  cases x <;> simp_all [Dbl.ge, Dbl.lt]

/-- A step below the tolerance is a step between two finite values. -/
theorem lt_abs_sub_tolerance {x y : Dbl α}
    (h : Dbl.lt (Dbl.abs (x - y)) tolerance = true) :
    ∃ p q : α, x = fin p ∧ y = fin q ∧ |p - q| < 1 / 1000000 := by
  cases x <;> cases y <;>
    first
    | exact ⟨_, _, rfl, rfl, by simpa [tolerance] using h⟩
    | (exfalso; revert h; simp [tolerance, Dbl.lt, Dbl.abs, HSub.hSub, Sub.sub, Dbl.sub,
        Dbl.add, Dbl.neg])

/-- A finite value that fails the test `x < a` has `x >= a`, unless `a` is `NaN`. -/
theorem ge_of_lt_eq_false {a : Dbl α} {x : α} (ha : a ≠ nan)
    (h : Dbl.lt (fin x) a = false) : Dbl.ge (fin x) a = true := by
  cases a <;> simp_all [Dbl.lt, Dbl.ge]

/-- A finite value that fails the test `x > b` has `b >= x`, unless `b` is `NaN`. -/
theorem ge_of_gt_eq_false {b : Dbl α} {x : α} (hb : b ≠ nan)
    (h : Dbl.gt (fin x) b = false) : Dbl.ge b (fin x) = true := by
  cases b <;> simp_all [Dbl.lt, Dbl.gt, Dbl.ge]

end Dbl

/-- On numbers (no `NaN` among the value and the bounds) the range test is true exactly
when the value is not in `[a, b]`. -/
theorem outside_eq_not_mem (a b x : Dbl α) (ha : a ≠ nan) (hb : b ≠ nan) (hx : x ≠ nan) :
    outside a b x = !(Dbl.ge x a && Dbl.ge b x) := by
  cases a <;> cases b <;> cases x <;>
    simp_all [outside, Dbl.lt, Dbl.gt, Dbl.ge, not_le, ← not_lt, imp_iff_not_or]

/-! ## The loops on finite values

For a function `f` that sends every number `x` to the number `F x`, one iteration of
each loop on finite values is an iteration on the numbers themselves. -/

/-- One iteration of the loop of `bisection` on finite endpoints. -/
theorem bisectionLoop_fin (f : Dbl α → Dbl α) (F : α → α) (hf : ∀ x, f (fin x) = fin (F x))
    (fuel : Nat) (a b : α) :
    bisectionLoop f (fuel + 1) (fin a) (fin b) =
      if |F ((a + b) / 2)| < 1 / 1000000 then some (Outcome.success (fin ((a + b) / 2)))
      else if F a * F ((a + b) / 2) < 0 then bisectionLoop f fuel (fin a) (fin ((a + b) / 2))
      else bisectionLoop f fuel (fin ((a + b) / 2)) (fin b) := by
  have h2 : (2 : α) ≠ 0 := two_ne_zero
  simp only [bisectionLoop, Dbl.fin_add_fin, Dbl.fin_div_fin_of_ne _ h2, hf, Dbl.abs_fin,
    tolerance, Dbl.lt_fin_fin, Dbl.fin_mul_fin, decide_eq_true_eq]

/-- The entry test of `bisection` on finite endpoints. -/
theorem bisection_fin (f : Dbl α → Dbl α) (F : α → α) (hf : ∀ x, f (fin x) = fin (F x))
    (fuel : Nat) (a b : α) :
    bisection fuel f (fin a) (fin b) =
      if 0 ≤ F a * F b then some Outcome.failure else bisectionLoop f fuel (fin a) (fin b) := by
  simp only [bisection, hf, Dbl.fin_mul_fin, Dbl.ge_fin_fin, decide_eq_true_eq]

/-- One iteration of the loop of `regula_falsi` on finite endpoints with
`f(b) - f(a)` not zero. -/
theorem regulaFalsiLoop_fin (f : Dbl α → Dbl α) (F : α → α)
    (hf : ∀ x, f (fin x) = fin (F x)) (fuel : Nat) (a b : α) (hab : F b - F a ≠ 0) :
    regulaFalsiLoop f (fuel + 1) (fin a) (fin b) =
      if |F (a - F a * (b - a) / (F b - F a))| < 1 / 1000000 then
        some (Outcome.success (fin (a - F a * (b - a) / (F b - F a))))
      else if F a * F (a - F a * (b - a) / (F b - F a)) < 0 then
        regulaFalsiLoop f fuel (fin a) (fin (a - F a * (b - a) / (F b - F a)))
      else regulaFalsiLoop f fuel (fin (a - F a * (b - a) / (F b - F a))) (fin b) := by
  simp only [regulaFalsiLoop, Dbl.fin_sub_fin, Dbl.fin_div_fin_of_ne _ hab, hf, Dbl.abs_fin,
    tolerance, Dbl.lt_fin_fin, Dbl.fin_mul_fin, decide_eq_true_eq]

/-- The entry test of `regula_falsi` on finite endpoints. -/
theorem regula_falsi_fin (f : Dbl α → Dbl α) (F : α → α) (hf : ∀ x, f (fin x) = fin (F x))
    (fuel : Nat) (a b : α) :
    regula_falsi fuel f (fin a) (fin b) =
      if 0 ≤ F a * F b then some Outcome.failure
      else regulaFalsiLoop f fuel (fin a) (fin b) := by
  simp only [regula_falsi, hf, Dbl.fin_mul_fin, Dbl.ge_fin_fin, decide_eq_true_eq]

/-- One iteration of `newton_raphson` on finite values with `g(c)` not zero. -/
theorem newton_raphson_fin (f g : Dbl α → Dbl α) (F G : α → α)
    (hf : ∀ x, f (fin x) = fin (F x)) (hg : ∀ x, g (fin x) = fin (G x))
    (fuel : Nat) (a b c : α) (hc : G c ≠ 0) :
    newton_raphson f g (fin a) (fin b) (fuel + 1) (fin c) =
      if c - F c / G c < a ∨ b < c - F c / G c then some Outcome.failure
      else if |c - (c - F c / G c)| < 1 / 1000000 then
        some (Outcome.success (fin (c - F c / G c)))
      else newton_raphson f g (fin a) (fin b) fuel (fin (c - F c / G c)) := by
  simp only [newton_raphson, Dbl.fin_sub_fin, Dbl.fin_div_fin_of_ne _ hc, hf, hg, Dbl.abs_fin,
    tolerance, Dbl.lt_fin_fin, Dbl.gt_fin_fin, Bool.or_eq_true, decide_eq_true_eq]

/-! ## More fuel does not change what a call returns -/

/-- A loop of `bisection` that returned keeps its result with more fuel. -/
theorem bisectionLoop_mono (f : Dbl α → Dbl α) (fuel k : Nat) (a b : Dbl α) (out : Outcome α)
    (h : bisectionLoop f fuel a b = some out) : bisectionLoop f (fuel + k) a b = some out := by
  induction fuel generalizing a b with
  | zero => simp [bisectionLoop] at h
  | succ n ih =>
    rw [Nat.succ_add]
    simp only [bisectionLoop] at h ⊢
    split_ifs at h ⊢ with h1 h2
    · exact h
    · exact ih _ _ h
    · exact ih _ _ h

/-- A loop of `regula_falsi` that returned keeps its result with more fuel. -/
theorem regulaFalsiLoop_mono (f : Dbl α → Dbl α) (fuel k : Nat) (a b : Dbl α)
    (out : Outcome α) (h : regulaFalsiLoop f fuel a b = some out) :
    regulaFalsiLoop f (fuel + k) a b = some out := by
  induction fuel generalizing a b with
  | zero => simp [regulaFalsiLoop] at h
  | succ n ih =>
    rw [Nat.succ_add]
    simp only [regulaFalsiLoop] at h ⊢
    split_ifs at h ⊢ with h1 h2
    · exact h
    · exact ih _ _ h
    · exact ih _ _ h

/-- A call of `newton_raphson` that returned keeps its result with more fuel. -/
theorem newton_raphson_mono (f g : Dbl α → Dbl α) (a b : Dbl α) (fuel k : Nat) (c : Dbl α)
    (out : Outcome α) (h : newton_raphson f g a b fuel c = some out) :
    newton_raphson f g a b (fuel + k) c = some out := by
  induction fuel generalizing c with
  | zero => simp [newton_raphson] at h
  | succ n ih =>
    rw [Nat.succ_add]
    simp only [newton_raphson] at h ⊢
    split_ifs at h ⊢ with h1 h2
    · exact h
    · exact h
    · exact ih _ h

/-! ## The two bracketing methods: the entry test -/

/-- One iteration of the loop moves the sequence one index on. -/
theorem newtonSeq_succ_eq (f g : Dbl α → Dbl α) (c : Dbl α) (n : Nat) :
    newtonSeq f g c (n + 1) = newtonSeq f g (c - f c / g c) n := by
  induction n with
  | zero => rfl
  | succ n ih =>
    show newtonSeq f g c (n + 1) - f (newtonSeq f g c (n + 1)) / g (newtonSeq f g c (n + 1)) = _
    rw [ih]
    rfl

/-- The stopping condition moves with the sequence. -/
theorem newtonStop_succ_eq (f g : Dbl α → Dbl α) (a b c : Dbl α) (n : Nat) :
    newtonStop f g a b c (n + 2) = newtonStop f g a b (c - f c / g c) (n + 1) := by
  show (outside a b (newtonSeq f g c (n + 1 + 1)) ||
      Dbl.lt (Dbl.abs (newtonSeq f g c (n + 1) - newtonSeq f g c (n + 1 + 1))) tolerance) = _
  rw [newtonSeq_succ_eq f g c (n + 1), newtonSeq_succ_eq f g c n]
  rfl

/-- The returned value moves with the sequence. -/
theorem newtonResult_succ_eq (f g : Dbl α → Dbl α) (a b c : Dbl α) (n : Nat) :
    newtonResult f g a b c (n + 1) = newtonResult f g a b (c - f c / g c) n := by
  simp only [newtonResult, newtonSeq_succ_eq f g c]

/-- The first iteration of `newton_raphson`, told by the stopping condition at index 1. -/
theorem newton_raphson_succ (f g : Dbl α → Dbl α) (a b c : Dbl α) (fuel : Nat) :
    newton_raphson f g a b (fuel + 1) c =
      if newtonStop f g a b c 1 then some (newtonResult f g a b c 1)
      else newton_raphson f g a b fuel (c - f c / g c) := by
  have hx1 : newtonSeq f g c 1 = c - f c / g c := rfl
  have hx0 : newtonSeq f g c 0 = c := rfl
  simp only [newton_raphson, newtonStop, newtonResult, outside, hx1, hx0, Nat.sub_self]
  by_cases h1 : (Dbl.lt (c - f c / g c) a || Dbl.gt (c - f c / g c) b) = true
  · simp [h1]
  · by_cases h2 : Dbl.lt (Dbl.abs (c - (c - f c / g c))) tolerance = true
    · simp [h1, h2]
    · simp [h1, h2]

/-- If `n + 1` is the least index at which the stopping condition holds, a call with
more than `n` iterations of fuel returns what the specification says. -/
theorem newton_raphson_of_least (f g : Dbl α → Dbl α) (a b : Dbl α) (n : Nat) :
    ∀ (c : Dbl α) (fuel : Nat), n < fuel → newtonStop f g a b c (n + 1) = true →
      (∀ m, m < n → newtonStop f g a b c (m + 1) = false) →
      newton_raphson f g a b fuel c = some (newtonResult f g a b c (n + 1)) := by
  induction n with
  | zero =>
    intro c fuel hfuel hstop _
    obtain ⟨k, rfl⟩ := Nat.exists_eq_succ_of_ne_zero (Nat.pos_iff_ne_zero.mp hfuel)
    rw [newton_raphson_succ, if_pos hstop]
  | succ n ih =>
    intro c fuel hfuel hstop hleast
    obtain ⟨k, rfl⟩ := Nat.exists_eq_succ_of_ne_zero (Nat.not_eq_zero_of_lt hfuel)
    have h1 : newtonStop f g a b c 1 = false := hleast 0 (Nat.succ_pos n)
    rw [newton_raphson_succ, h1, newtonResult_succ_eq f g a b c (n + 1)]
    simp only [Bool.false_eq_true, if_false]
    apply ih _ k (Nat.lt_of_succ_lt_succ hfuel)
    · rw [← newtonStop_succ_eq]; exact hstop
    · intro m hm
      rw [← newtonStop_succ_eq]
      exact hleast (m + 1) (Nat.succ_lt_succ hm)

/-- A call that returns stopped at the least index at which the stopping condition
holds, and returned what the specification says. -/
theorem newton_raphson_eq_some (f g : Dbl α → Dbl α) (a b : Dbl α) (fuel : Nat) :
    ∀ (c : Dbl α) (out : Outcome α), newton_raphson f g a b fuel c = some out →
      ∃ n, n < fuel ∧ newtonStop f g a b c (n + 1) = true ∧
        (∀ m, m < n → newtonStop f g a b c (m + 1) = false) ∧
        out = newtonResult f g a b c (n + 1) := by
  induction fuel with
  | zero => intro c out h; simp [newton_raphson] at h
  | succ k ih =>
    intro c out h
    rw [newton_raphson_succ] at h
    by_cases h1 : newtonStop f g a b c 1 = true
    · rw [if_pos h1] at h
      exact ⟨0, Nat.succ_pos k, h1, fun m hm => absurd hm (Nat.not_lt_zero m),
        (Option.some.inj h).symm⟩
    · rw [if_neg h1] at h
      obtain ⟨n, hn, hstop, hleast, hout⟩ := ih _ out h
      refine ⟨n + 1, Nat.succ_lt_succ hn, ?_, ?_, ?_⟩
      · rw [newtonStop_succ_eq]; exact hstop
      · intro m hm
        cases m with
        | zero => simpa using h1
        | succ m =>
          rw [newtonStop_succ_eq]
          exact hleast m (Nat.lt_of_succ_lt_succ hm)
      · rw [newtonResult_succ_eq]; exact hout

/-- C5: with `x_0 = c` and `x_{n+1} = x_n - f(x_n)/g(x_n)`, `newton_raphson` returns
exactly when there is a least `n >= 1` at which `x_n` lies outside `[a, b]` or
`|x_{n-1} - x_n| < 1e-6`: any fuel of at least `n` iterations then gives failure if
`x_n` lies outside `[a, b]` (the range test comes first) and success with root `x_n`
otherwise; a call that returns returned at such a least `n`; with no such `n` no fuel
makes the call return.  A root written on success is a finite value which passed the
range test, lies in `[a, b]` (for bounds that are not `NaN`) and is within `1e-6` of
the iterate before it. -/
theorem newton_raphson_returns_at_least_stop (f g : Dbl α → Dbl α) (a b c : Dbl α) :
    (∀ n, 1 ≤ n → newtonStop f g a b c n = true →
      (∀ m, 1 ≤ m → m < n → newtonStop f g a b c m = false) →
      ∀ fuel, n ≤ fuel → newton_raphson f g a b fuel c = some (newtonResult f g a b c n)) ∧
    (∀ fuel out, newton_raphson f g a b fuel c = some out →
      ∃ n, 1 ≤ n ∧ n ≤ fuel ∧ newtonStop f g a b c n = true ∧
        (∀ m, 1 ≤ m → m < n → newtonStop f g a b c m = false) ∧
        out = newtonResult f g a b c n) ∧
    ((∀ n, 1 ≤ n → newtonStop f g a b c n = false) →
      ∀ fuel, newton_raphson f g a b fuel c = none) ∧
    (∀ fuel root, newton_raphson f g a b fuel c = some (Outcome.success root) →
      ∃ n r p, 1 ≤ n ∧ root = fin r ∧ newtonSeq f g c n = fin r ∧
        newtonSeq f g c (n - 1) = fin p ∧ |p - r| < 1 / 1000000 ∧
        outside a b root = false ∧
        (a ≠ nan → Dbl.ge root a = true) ∧ (b ≠ nan → Dbl.ge b root = true)) := by
  refine ⟨?_, ?_, ?_, ?_⟩
  · intro n hn hstop hleast fuel hfuel
    obtain ⟨k, rfl⟩ := Nat.exists_eq_succ_of_ne_zero (Nat.pos_iff_ne_zero.mp hn)
    exact newton_raphson_of_least f g a b k c fuel hfuel hstop
      (fun m hm => hleast (m + 1) (Nat.succ_pos m) (Nat.succ_lt_succ hm))
  · intro fuel out h
    obtain ⟨n, hn, hstop, hleast, hout⟩ := newton_raphson_eq_some f g a b fuel c out h
    refine ⟨n + 1, Nat.succ_pos n, hn, hstop, ?_, hout⟩
    intro m hm hmn
    obtain ⟨j, rfl⟩ := Nat.exists_eq_succ_of_ne_zero (Nat.pos_iff_ne_zero.mp hm)
    exact hleast j (Nat.lt_of_succ_lt_succ hmn)
  · intro hnever fuel
    cases h : newton_raphson f g a b fuel c with
    | none => rfl
    | some out =>
      obtain ⟨n, _, hstop, _, _⟩ := newton_raphson_eq_some f g a b fuel c out h
      rw [hnever (n + 1) (Nat.succ_pos n)] at hstop
      cases hstop
  · intro fuel root h
    obtain ⟨n, _, hstop, _, hout⟩ := newton_raphson_eq_some f g a b fuel c _ h
    have hin : outside a b (newtonSeq f g c (n + 1)) = false := by
      by_contra hne
      rw [newtonResult, if_pos (by simpa using hne)] at hout
      cases hout
    have hroot : root = newtonSeq f g c (n + 1) := by
      rw [newtonResult, hin] at hout
      simpa using hout
    have hstep : Dbl.lt (Dbl.abs (newtonSeq f g c n - newtonSeq f g c (n + 1))) tolerance
        = true := by
      simpa [newtonStop, hin] using hstop
    obtain ⟨p, r, hp, hr, hpr⟩ := Dbl.lt_abs_sub_tolerance hstep
    have hin2 := hin
    rw [hr, outside, Bool.or_eq_false_iff] at hin2
    refine ⟨n + 1, r, p, Nat.succ_pos n, hroot.trans hr, hr, hp, hpr, hroot ▸ hin, ?_, ?_⟩
    · intro ha
      rw [hroot, hr]
      exact Dbl.ge_of_lt_eq_false ha hin2.1
    · intro hb
      rw [hroot, hr]
      exact Dbl.ge_of_gt_eq_false hb hin2.2

/-- A case of C5: `f(x) = x - 2`, `g(x) = 1`, `a = 0`, `b = 10`, `c = 3` has `x_1 = 2`
(a step of size 1) and `x_2 = 2` (a step of size 0): the call returns at `n = 2`, success
with root 2. -/
theorem newton_raphson_returns_witness :
    newton_raphson (fun x : Dbl ℚ => x - fin 2) (fun _ => fin 1) (fin 0) (fin 10) 2 (fin 3) =
      some (Outcome.success (fin 2)) := by
  have hx1 : newtonSeq (fun x : Dbl ℚ => x - fin 2) (fun _ => fin 1) (fin 3) 1 = fin 2 := by
    norm_num [newtonSeq]
  have hx2 : newtonSeq (fun x : Dbl ℚ => x - fin 2) (fun _ => fin 1) (fin 3) 2 = fin 2 := by
    norm_num [newtonSeq]
  have h := (newton_raphson_returns_at_least_stop (fun x : Dbl ℚ => x - fin 2)
    (fun _ => fin 1) (fin 0) (fin 10) (fin 3)).1 2 (by norm_num)
    (by norm_num [newtonStop, outside, hx1, hx2, tolerance])
    (fun m h1 h2 => by
      obtain rfl : m = 1 := by omega
      norm_num [newtonStop, outside, hx1, newtonSeq, tolerance, le_abs])
    2 le_rfl
  rw [h]
  norm_num [newtonResult, outside, hx2]

/-! ## Secant against the sequence of the specification -/

/-- One iteration of the loop moves the two-point window one index on. -/
theorem secantSeqFrom_succ_eq (f : Dbl α → Dbl α) (c d : Dbl α) (n : Nat) :
    secantSeqFrom f c d (n + 1) =
        secantSeqFrom f d (d - f d * (d - c) / (f d - f c)) n ∧
      secantSeqFrom f c d (n + 2) =
        secantSeqFrom f d (d - f d * (d - c) / (f d - f c)) (n + 1) := by
  induction n with
  | zero => exact ⟨rfl, rfl⟩
  | succ n ih =>
    refine ⟨ih.2, ?_⟩
    show secantSeqFrom f c d (n + 2) - f (secantSeqFrom f c d (n + 2)) *
        (secantSeqFrom f c d (n + 2) - secantSeqFrom f c d (n + 1)) /
        (f (secantSeqFrom f c d (n + 2)) - f (secantSeqFrom f c d (n + 1))) = _
    rw [ih.1, ih.2]
    rfl

/-- The stopping condition moves with the window. -/
theorem secantStopFrom_succ_eq (f : Dbl α → Dbl α) (a b c d : Dbl α) (n : Nat) :
    secantStopFrom f a b c d (n + 3) =
      secantStopFrom f a b d (d - f d * (d - c) / (f d - f c)) (n + 2) := by
  show (outside a b (secantSeqFrom f c d (n + 3)) ||
      Dbl.lt (Dbl.abs (secantSeqFrom f c d (n + 3) - secantSeqFrom f c d (n + 2))) tolerance)
      = _
  rw [(secantSeqFrom_succ_eq f c d (n + 1)).2, (secantSeqFrom_succ_eq f c d n).2]
  rfl

/-- The returned value moves with the window. -/
theorem secantResultFrom_succ_eq (f : Dbl α → Dbl α) (a b c d : Dbl α) (n : Nat) :
    secantResultFrom f a b c d (n + 1) =
      secantResultFrom f a b d (d - f d * (d - c) / (f d - f c)) n := by
  simp only [secantResultFrom, (secantSeqFrom_succ_eq f c d n).1]

/-- The first iteration of the loop of `secant`, told by the stopping condition at
index 2. -/
theorem secantLoop_succ (f : Dbl α → Dbl α) (a b c d : Dbl α) (fuel : Nat) :
    secantLoop f a b (fuel + 1) c d =
      if secantStopFrom f a b c d 2 then some (secantResultFrom f a b c d 2)
      else secantLoop f a b fuel d (d - f d * (d - c) / (f d - f c)) := by
  have hx2 : secantSeqFrom f c d 2 = d - f d * (d - c) / (f d - f c) := rfl
  have hx1 : secantSeqFrom f c d 1 = d := rfl
  simp only [secantLoop, secantStopFrom, secantResultFrom, outside, hx2, hx1,
    Nat.add_one_sub_one]
  by_cases h1 : (Dbl.lt (d - f d * (d - c) / (f d - f c)) a ||
      Dbl.gt (d - f d * (d - c) / (f d - f c)) b) = true
  · simp [h1]
  · by_cases h2 : Dbl.lt (Dbl.abs (d - f d * (d - c) / (f d - f c) - d)) tolerance = true
    · simp [h1, h2]
    · simp [h1, h2]

/-- If `n + 2` is the least index at which the stopping condition holds, a loop with
more than `n` iterations of fuel returns what the specification says. -/
theorem secantLoop_of_least (f : Dbl α → Dbl α) (a b : Dbl α) (n : Nat) :
    ∀ (c d : Dbl α) (fuel : Nat), n < fuel → secantStopFrom f a b c d (n + 2) = true →
      (∀ m, m < n → secantStopFrom f a b c d (m + 2) = false) →
      secantLoop f a b fuel c d = some (secantResultFrom f a b c d (n + 2)) := by
  induction n with
  | zero =>
    intro c d fuel hfuel hstop _
    obtain ⟨k, rfl⟩ := Nat.exists_eq_succ_of_ne_zero (Nat.pos_iff_ne_zero.mp hfuel)
    rw [secantLoop_succ, if_pos hstop]
  | succ n ih =>
    intro c d fuel hfuel hstop hleast
    obtain ⟨k, rfl⟩ := Nat.exists_eq_succ_of_ne_zero (Nat.not_eq_zero_of_lt hfuel)
    have h1 : secantStopFrom f a b c d 2 = false := hleast 0 (Nat.succ_pos n)
    rw [secantLoop_succ, h1, secantResultFrom_succ_eq f a b c d (n + 2)]
    simp only [Bool.false_eq_true, if_false]
    apply ih _ _ k (Nat.lt_of_succ_lt_succ hfuel)
    · rw [← secantStopFrom_succ_eq]; exact hstop
    · intro m hm
      rw [← secantStopFrom_succ_eq]
      exact hleast (m + 1) (Nat.succ_lt_succ hm)

/-- A loop that returns stopped at the least index at which the stopping condition
holds, and returned what the specification says. -/
theorem secantLoop_eq_some (f : Dbl α → Dbl α) (a b : Dbl α) (fuel : Nat) :
    ∀ (c d : Dbl α) (out : Outcome α), secantLoop f a b fuel c d = some out →
      ∃ n, n < fuel ∧ secantStopFrom f a b c d (n + 2) = true ∧
        (∀ m, m < n → secantStopFrom f a b c d (m + 2) = false) ∧
        out = secantResultFrom f a b c d (n + 2) := by
  induction fuel with
  | zero => intro c d out h; simp [secantLoop] at h
  | succ k ih =>
    intro c d out h
    rw [secantLoop_succ] at h
    by_cases h1 : secantStopFrom f a b c d 2 = true
    · rw [if_pos h1] at h
      exact ⟨0, Nat.succ_pos k, h1, fun m hm => absurd hm (Nat.not_lt_zero m),
        (Option.some.inj h).symm⟩
    · rw [if_neg h1] at h
      obtain ⟨n, hn, hstop, hleast, hout⟩ := ih _ _ out h
      refine ⟨n + 1, Nat.succ_lt_succ hn, ?_, ?_, ?_⟩
      · rw [secantStopFrom_succ_eq]; exact hstop
      · intro m hm
        cases m with
        | zero => simpa using h1
        | succ m =>
          rw [secantStopFrom_succ_eq]
          exact hleast m (Nat.lt_of_succ_lt_succ hm)
      · rw [secantResultFrom_succ_eq f a b c d (n + 2)]; exact hout

/-- C6: with `x_0 = c`, `x_1 = c + 1e-6` and
`x_{n+1} = x_n - f(x_n)*(x_n - x_{n-1})/(f(x_n) - f(x_{n-1}))`, `secant` returns exactly
when there is a least `n >= 2` at which `x_n` lies outside `[a, b]` or
`|x_n - x_{n-1}| < 1e-6`: any fuel of at least `n - 1` iterations then gives failure if
`x_n` lies outside `[a, b]` (the range test comes first) and success with root `x_n`
otherwise; a call that returns returned at such a least `n`.  A root written on success
is a finite value which passed the range test, lies in `[a, b]` (for bounds that are
not `NaN`) and is within `1e-6` of the iterate before it. -/
theorem secant_returns_at_least_stop (f : Dbl α → Dbl α) (a b c : Dbl α) :
    (∀ n, 2 ≤ n → secantStop f a b c n = true →
      (∀ m, 2 ≤ m → m < n → secantStop f a b c m = false) →
      ∀ fuel, n ≤ fuel + 1 → secant fuel f a b c = some (secantResult f a b c n)) ∧
    (∀ fuel out, secant fuel f a b c = some out →
      ∃ n, 2 ≤ n ∧ n ≤ fuel + 1 ∧ secantStop f a b c n = true ∧
        (∀ m, 2 ≤ m → m < n → secantStop f a b c m = false) ∧
        out = secantResult f a b c n) ∧
    (∀ fuel root, secant fuel f a b c = some (Outcome.success root) →
      ∃ n r p, 2 ≤ n ∧ root = fin r ∧ secantSeq f c n = fin r ∧
        secantSeq f c (n - 1) = fin p ∧ |r - p| < 1 / 1000000 ∧
        outside a b root = false ∧
        (a ≠ nan → Dbl.ge root a = true) ∧ (b ≠ nan → Dbl.ge b root = true)) := by
  refine ⟨?_, ?_, ?_⟩
  · intro n hn hstop hleast fuel hfuel
    obtain ⟨k, rfl⟩ : ∃ k, n = k + 2 := ⟨n - 2, by omega⟩
    exact secantLoop_of_least f a b k c _ fuel (by omega) hstop
      (fun m hm => hleast (m + 2) (by omega) (by omega))
  · intro fuel out h
    obtain ⟨n, hn, hstop, hleast, hout⟩ := secantLoop_eq_some f a b fuel c _ out h
    refine ⟨n + 2, by omega, by omega, hstop, ?_, hout⟩
    intro m hm hmn
    obtain ⟨j, rfl⟩ : ∃ j, m = j + 2 := ⟨m - 2, by omega⟩
    exact hleast j (by omega)
  · intro fuel root h
    obtain ⟨n, _, hstop, _, hout⟩ := secantLoop_eq_some f a b fuel c _ _ h
    have hin : outside a b (secantSeq f c (n + 2)) = false := by
      by_contra hne
      rw [secantResultFrom, if_pos (by simpa [secantSeq] using hne)] at hout
      cases hout
    have hroot : root = secantSeq f c (n + 2) := by
      rw [secantResultFrom, if_neg (by simpa [secantSeq] using hin)] at hout
      simpa [secantSeq] using hout
    have hstep : Dbl.lt (Dbl.abs (secantSeq f c (n + 2) - secantSeq f c (n + 1))) tolerance
        = true := by
      have hin3 : outside a b (secantSeqFrom f c (c + tolerance) (n + 2)) = false := hin
      simpa [secantStopFrom, secantSeq, hin3] using hstop
    obtain ⟨r, p, hr, hp, hrp⟩ := Dbl.lt_abs_sub_tolerance hstep
    have hin2 := hin
    rw [hr, outside, Bool.or_eq_false_iff] at hin2
    refine ⟨n + 2, r, p, by omega, hroot.trans hr, hr, hp, hrp, hroot ▸ hin, ?_, ?_⟩
    · intro ha
      rw [hroot, hr]
      exact Dbl.ge_of_lt_eq_false ha hin2.1
    · intro hb
      rw [hroot, hr]
      exact Dbl.ge_of_gt_eq_false hb hin2.2

/-- A case of C6: `f(x) = x - 2`, `a = 0`, `b = 10`, `c = 3` has `x_1 = 3 + 1e-6`,
`x_2 = 2` and `x_3 = 2` (a step of size 0): the call returns at `n = 3`, success with
root 2. -/
theorem secant_returns_witness :
    secant 2 (fun x : Dbl ℚ => x - fin 2) (fin 0) (fin 10) (fin 3) =
      some (Outcome.success (fin 2)) := by
  have hx1 : secantSeq (fun x : Dbl ℚ => x - fin 2) (fin 3) 1 = fin (3000001 / 1000000) := by
    norm_num [secantSeq, secantSeqFrom, tolerance]
  have hx2 : secantSeq (fun x : Dbl ℚ => x - fin 2) (fin 3) 2 = fin 2 := by
    norm_num [secantSeq, secantSeqFrom, tolerance]
  have hx3 : secantSeq (fun x : Dbl ℚ => x - fin 2) (fin 3) 3 = fin 2 := by
    norm_num [secantSeq, secantSeqFrom, tolerance]
  have h := (secant_returns_at_least_stop (fun x : Dbl ℚ => x - fin 2)
    (fin 0) (fin 10) (fin 3)).1 3 (by norm_num)
    (by
      show (outside (fin 0) (fin 10) (secantSeq (fun x : Dbl ℚ => x - fin 2) (fin 3) 3) ||
        Dbl.lt (Dbl.abs (secantSeq (fun x : Dbl ℚ => x - fin 2) (fin 3) 3 -
          secantSeq (fun x : Dbl ℚ => x - fin 2) (fin 3) 2)) tolerance) = true
      norm_num [hx2, hx3, outside, tolerance])
    (fun m h1 h2 => by
      obtain rfl : m = 2 := by omega
      show (outside (fin 0) (fin 10) (secantSeq (fun x : Dbl ℚ => x - fin 2) (fin 3) 2) ||
        Dbl.lt (Dbl.abs (secantSeq (fun x : Dbl ℚ => x - fin 2) (fin 3) 2 -
          secantSeq (fun x : Dbl ℚ => x - fin 2) (fin 3) 1)) tolerance) = false
      norm_num [hx1, hx2, outside, tolerance, le_abs])
    2 le_rfl
  rw [h]
  show some (if outside (fin 0) (fin 10) (secantSeq (fun x : Dbl ℚ => x - fin 2) (fin 3) 3)
    = true then Outcome.failure
    else Outcome.success (secantSeq (fun x : Dbl ℚ => x - fin 2) (fin 3) 3)) = _
  norm_num [outside, hx3]

/-! ## Newton-Raphson at a zero derivative -/

/-- Once the iterate is `NaN` the loop of `newton_raphson` has no exit: both range
comparisons and the step comparison are false on `NaN`. -/
theorem newton_raphson_nan (f g : Dbl α → Dbl α) (a b : Dbl α) (fuel : Nat) :
    newton_raphson f g a b fuel nan = none := by
  induction fuel with
  | zero => rfl
  | succ k ih => simpa [newton_raphson] using ih

/-- With `f(c) = 0` and `g(c) = 0` the step `f(c)/g(c)` is `NaN`, the new iterate is
`NaN`, and the call does not return, whatever the bounds and the fuel. -/
theorem newton_raphson_zero_over_zero (f g : Dbl α → Dbl α) (a b c : Dbl α)
    (hf : f c = fin 0) (hg : g c = fin 0) (fuel : Nat) :
    newton_raphson f g a b fuel c = none := by
  have hstep : f c / g c = nan := by
    rw [hf, hg, Dbl.fin_div_fin]
    simp [Dbl.infOfSign]
  cases fuel with
  | zero => rfl
  | succ k => simpa [newton_raphson, hstep] using newton_raphson_nan f g a b k

/-- With `g(c) = 0` and `f(c)` a nonzero number the step is an infinity, the new
iterate is the other infinity, and finite bounds reject it: the call returns failure
on that iteration. -/
theorem newton_raphson_zero_derivative_fails (f g : Dbl α → Dbl α) (a b c y : α)
    (hf : f (fin c) = fin y) (hy : y ≠ 0) (hg : g (fin c) = fin 0) (fuel : Nat) :
    newton_raphson f g (fin a) (fin b) (fuel + 1) (fin c) = some Outcome.failure := by
  rcases lt_or_gt_of_ne hy with h | h
  · have hstep : f (fin c) / g (fin c) = ninf := by
      rw [hf, hg, Dbl.fin_div_fin]
      simp [Dbl.infOfSign, h, not_lt_of_gt h]
    have hres : (fin c - ninf : Dbl α) = pinf := rfl
    simp [newton_raphson, hstep, hres, Dbl.lt, Dbl.gt]
  · have hstep : f (fin c) / g (fin c) = pinf := by
      rw [hf, hg, Dbl.fin_div_fin]
      simp [Dbl.infOfSign, h]
    have hres : (fin c - pinf : Dbl α) = ninf := rfl
    simp [newton_raphson, hstep, hres, Dbl.lt, Dbl.gt]

/-- C7, at `f(x) = x*x`, `g(x) = 2*x`, `a = -1`, `b = 1`, `c = 0`: here `f(c) = 0` and
`g(c) = 0`, and the call returns neither failure nor success: no fuel makes it return. -/
theorem newton_raphson_zero_over_zero_never_returns :
    (fun x : Dbl ℚ => x * x) (fin 0) = fin 0 ∧
    (fun x : Dbl ℚ => fin 2 * x) (fin 0) = fin 0 ∧
    ∀ fuel, newton_raphson (fun x : Dbl ℚ => x * x) (fun x => fin 2 * x)
      (fin (-1)) (fin 1) fuel (fin 0) = none :=
  ⟨by simp, by simp, fun fuel =>
    newton_raphson_zero_over_zero _ _ _ _ _ (by simp) (by simp) fuel⟩

/-! ## Newton-Raphson on `x^2 + 1` -/

/-- The Newton step of `x^2 + 1` at a nonzero `p` has size at least 1. -/
theorem one_le_abs_newton_step (p : α) (hp : p ≠ 0) : 1 ≤ |(p * p + 1) / (2 * p)| := by
  have h2 : (0 : α) < 2 * |p| := mul_pos two_pos (abs_pos.mpr hp)
  have h3 : (0 : α) < p * p + 1 := by nlinarith [mul_self_nonneg p]
  rw [abs_div, abs_mul, abs_two, abs_of_pos h3, le_div_iff₀ h2]
  nlinarith [sq_nonneg (|p| - 1), abs_mul_abs_self p]

/-- On `f(x) = x*x + 1`, `g(x) = 2*x` no iteration of `newton_raphson` passes the step
test, whatever the iterate: the step is at least 1, infinite, or `NaN`. -/
theorem newton_step_test_fails (c : Dbl α) :
    Dbl.lt (Dbl.abs (c - (c - (c * c + fin 1) / (fin 2 * c)))) tolerance = false := by
  by_contra h
  obtain ⟨p, q, hc, hq, hpq⟩ := Dbl.lt_abs_sub_tolerance (Bool.eq_true_of_not_eq_false h)
  subst hc
  by_cases hp : p = 0
  · subst hp
    revert hq
    simp [Dbl.fin_div_fin, Dbl.infOfSign, HSub.hSub, Sub.sub, Dbl.sub, Dbl.add, Dbl.neg]
  · have h2p : (2 : α) * p ≠ 0 := mul_ne_zero two_ne_zero hp
    simp only [Dbl.fin_mul_fin, Dbl.fin_add_fin, Dbl.fin_div_fin_of_ne _ h2p,
      Dbl.fin_sub_fin, Dbl.fin.injEq] at hq
    have h1 := one_le_abs_newton_step p hp
    rw [← hq, sub_sub_cancel] at hpq
    have : (1 : α) / 1000000 < 1 := by norm_num
    exact absurd (lt_of_le_of_lt h1 hpq) (not_lt_of_gt this)

/-- C8: for `f(x) = x^2 + 1` and `g(x) = 2x`, `newton_raphson` never returns success,
for every guess `c`, bounds `a`, `b` and fuel: a call returns failure (the range test
is its only other exit) or does not return. -/
theorem newton_raphson_no_real_root_never_success (a b c : Dbl α) (fuel : Nat) :
    newton_raphson (fun x => x * x + fin 1) (fun x => fin 2 * x) a b fuel c = none ∨
    newton_raphson (fun x => x * x + fin 1) (fun x => fin 2 * x) a b fuel c =
      some Outcome.failure := by
  induction fuel generalizing c with
  | zero => exact Or.inl rfl
  | succ k ih =>
    simp only [newton_raphson, newton_step_test_fails c, Bool.false_eq_true, if_false]
    split_ifs
    · exact Or.inr rfl
    · exact ih _

/-! ## Bisection on a continuous function -/

/-- A value within `ε` of two values of opposite sign is itself below `ε` in size. -/
theorem abs_lt_of_opposite_signs {u v z ε : α} (huv : u * v < 0) (hu : |z - u| < ε)
    (hv : |z - v| < ε) : |z| < ε := by
  rw [abs_lt] at *
  rcases mul_neg_iff.mp huv with ⟨h1, h2⟩ | ⟨h1, h2⟩
  · constructor <;> linarith
  · constructor <;> linarith

/-- The sign change moves to the right half when the left half has none. -/
theorem sign_change_right {u v z : α} (huv : u * v < 0) (hz : z ≠ 0) (huz : ¬u * z < 0) :
    z * v < 0 := by
  rcases mul_neg_iff.mp huv with ⟨h1, h2⟩ | ⟨h1, h2⟩
  · rcases lt_or_gt_of_ne hz with h | h
    · exact absurd (mul_neg_of_pos_of_neg h1 h) huz
    · exact mul_neg_of_pos_of_neg h h2
  · rcases lt_or_gt_of_ne hz with h | h
    · exact mul_neg_of_neg_of_pos h h2
    · exact absurd (mul_neg_of_neg_of_pos h1 h) huz

/-- A bracket of `[lo, hi]` with a sign change and of width below `δ * 2^n`, where `F`
moves by less than the tolerance over distances below `δ`, makes the loop of
`bisection` return success within `n + 1` iterations. -/
theorem bisectionLoop_returns (f : Dbl ℝ → Dbl ℝ) (F : ℝ → ℝ)
    (hf : ∀ x, f (fin x) = fin (F x)) (lo hi δ : ℝ)
    (hδ : ∀ x ∈ Set.Icc lo hi, ∀ y ∈ Set.Icc lo hi, |x - y| < δ →
      |F x - F y| < 1 / 1000000) :
    ∀ (n : Nat) (a b : ℝ), a ∈ Set.Icc lo hi → b ∈ Set.Icc lo hi → F a * F b < 0 →
      |b - a| < δ * 2 ^ n →
      ∃ r, r ∈ Set.Icc lo hi ∧
        bisectionLoop f (n + 1) (fin a) (fin b) = some (Outcome.success (fin r)) ∧
        |F r| < 1 / 1000000 := by
  intro n
  induction n with
  | zero =>
    intro a b ha hb hab hw
    have hc : (a + b) / 2 ∈ Set.Icc lo hi :=
      ⟨by linarith [ha.1, hb.1], by linarith [ha.2, hb.2]⟩
    have hw0 : |b - a| < δ := by simpa using hw
    have hca : |(a + b) / 2 - a| < δ := by
      have : (a + b) / 2 - a = (b - a) / 2 := by ring
      rw [this, abs_div, abs_two]
      linarith [abs_nonneg (b - a)]
    have hcb : |(a + b) / 2 - b| < δ := by
      have : (a + b) / 2 - b = -((b - a) / 2) := by ring
      rw [this, abs_neg, abs_div, abs_two]
      linarith [abs_nonneg (b - a)]
    have h1 : |F ((a + b) / 2)| < 1 / 1000000 :=
      abs_lt_of_opposite_signs hab (hδ _ hc _ ha hca) (hδ _ hc _ hb hcb)
    exact ⟨_, hc, by rw [bisectionLoop_fin f F hf, if_pos h1], h1⟩
  | succ n ih =>
    intro a b ha hb hab hw
    have hc : (a + b) / 2 ∈ Set.Icc lo hi :=
      ⟨by linarith [ha.1, hb.1], by linarith [ha.2, hb.2]⟩
    rw [bisectionLoop_fin f F hf]
    by_cases h1 : |F ((a + b) / 2)| < 1 / 1000000
    · exact ⟨_, hc, by rw [if_pos h1], h1⟩
    · rw [if_neg h1]
      have hcz : F ((a + b) / 2) ≠ 0 := by
        intro h0
        rw [h0, abs_zero] at h1
        exact h1 (by norm_num)
      have hhalf : |b - a| / 2 < δ * 2 ^ n := by
        rw [pow_succ] at hw
        linarith
      by_cases h2 : F a * F ((a + b) / 2) < 0
      · rw [if_pos h2]
        apply ih a _ ha hc h2
        have : (a + b) / 2 - a = (b - a) / 2 := by ring
        rw [this, abs_div, abs_two]
        exact hhalf
      · rw [if_neg h2]
        apply ih _ b hc hb (sign_change_right hab hcz h2)
        have : b - (a + b) / 2 = (b - a) / 2 := by ring
        rw [this, abs_div, abs_two]
        exact hhalf

/-- C1, in exact real arithmetic: for `f` continuous on the interval between `a` and
`b`, with `f(a)*f(b) < 0`, `bisection(f, a, b)` returns (some fuel is enough), returns
success, and the root it writes has `|f(root)| < 1e-6`. -/
theorem bisection_continuous_success (f : Dbl ℝ → Dbl ℝ) (F : ℝ → ℝ)
    (hf : ∀ x, f (fin x) = fin (F x)) (a b : ℝ) (hF : ContinuousOn F (Set.uIcc a b))
    (hab : F a * F b < 0) :
    ∃ fuel r, bisection fuel f (fin a) (fin b) = some (Outcome.success (fin r)) ∧
      |F r| < 1 / 1000000 := by
  have huc := isCompact_uIcc.uniformContinuousOn_of_continuous hF
  rw [Metric.uniformContinuousOn_iff] at huc
  obtain ⟨δ, hδ0, hδ⟩ := huc (1 / 1000000) (by norm_num)
  obtain ⟨n, hn⟩ := pow_unbounded_of_one_lt (|b - a| / δ) (one_lt_two : (1 : ℝ) < 2)
  have hw : |b - a| < δ * 2 ^ n := by
    rw [div_lt_iff₀ hδ0] at hn
    linarith
  obtain ⟨r, _, hr, hFr⟩ := bisectionLoop_returns f F hf (min a b) (max a b) δ
    (fun x hx y hy hxy => by
      have := hδ x hx y hy (by rwa [Real.dist_eq])
      rwa [Real.dist_eq] at this)
    n a b Set.left_mem_uIcc Set.right_mem_uIcc hab hw
  exact ⟨n + 1, r, by rw [bisection_fin f F hf, if_neg (not_le.mpr hab)]; exact hr, hFr⟩

/-- The scenario of C1: `f(x) = x - 2` on `[0, 10]` returns success with a root within
`1e-6` of 2. -/
theorem bisection_continuous_success_witness :
    ∃ fuel r, bisection fuel (fun x : Dbl ℝ => x - fin 2) (fin 0) (fin 10) =
        some (Outcome.success (fin r)) ∧ |r - 2| < 1 / 1000000 :=
  bisection_continuous_success (fun x : Dbl ℝ => x - fin 2) (fun x => x - 2)
    (fun x => by simp) 0 10 (by fun_prop) (by norm_num)

/-! ## Regula falsi on a continuous function -/

/-- With `u` and `v` of opposite sign, the weight `-u / (v - u)` of the interpolation
point is `|u| / (|u| + |v|)`. -/
theorem falsi_weight_eq {u v : α} (huv : u * v < 0) : -u / (v - u) = |u| / (|u| + |v|) := by
  rcases mul_neg_iff.mp huv with ⟨h1, h2⟩ | ⟨h1, h2⟩
  · rw [abs_of_pos h1, abs_of_neg h2, ← neg_div_neg_eq]
    congr 1 <;> ring
  · rw [abs_of_neg h1, abs_of_pos h2]
    congr 1
    ring

/-- With `u` and `v` of opposite sign, of size between `m` and `M`, the weight of the
interpolation point stays `m / (2 M)` away from 0 and from 1. -/
theorem falsi_weight_bounds {u v m M : α} (huv : u * v < 0) (hm : 0 < m) (hu : m ≤ |u|)
    (hv : m ≤ |v|) (hMu : |u| ≤ M) (hMv : |v| ≤ M) :
    m / (2 * M) ≤ -u / (v - u) ∧ -u / (v - u) ≤ 1 - m / (2 * M) := by
  have hpos : 0 < |u| + |v| := by linarith
  have hle : |u| + |v| ≤ 2 * M := by linarith
  rw [falsi_weight_eq huv]
  constructor
  · exact div_le_div₀ (abs_nonneg u) hu hpos hle
  · have h1 : m / (2 * M) ≤ |v| / (|u| + |v|) := div_le_div₀ (abs_nonneg v) hv hpos hle
    have h2 : |u| / (|u| + |v|) = 1 - |v| / (|u| + |v|) := by
      field_simp
    linarith

/-- A bracket of `[lo, hi]` with a sign change, with `|F|` at least `m` at both ends and
at most `M` on `[lo, hi]`, and of width below `δ / q^n` for `q = 1 - m / (2 M)`, where
`F` moves by less than the tolerance over distances below `δ`, makes the loop of
`regula_falsi` return success within `n + 1` iterations. -/
theorem regulaFalsiLoop_returns (f : Dbl ℝ → Dbl ℝ) (F : ℝ → ℝ)
    (hf : ∀ x, f (fin x) = fin (F x)) (lo hi δ m M : ℝ)
    (hδ : ∀ x ∈ Set.Icc lo hi, ∀ y ∈ Set.Icc lo hi, |x - y| < δ →
      |F x - F y| < 1 / 1000000)
    (hm : 0 < m) (hmtol : m ≤ 1 / 1000000) (hM : ∀ x ∈ Set.Icc lo hi, |F x| ≤ M) :
    ∀ (n : Nat) (a b : ℝ), a ∈ Set.Icc lo hi → b ∈ Set.Icc lo hi → F a * F b < 0 →
      m ≤ |F a| → m ≤ |F b| → |b - a| * (1 - m / (2 * M)) ^ n < δ →
      ∃ r, r ∈ Set.Icc lo hi ∧
        regulaFalsiLoop f (n + 1) (fin a) (fin b) = some (Outcome.success (fin r)) ∧
        |F r| < 1 / 1000000 := by
  have key : ∀ (a b : ℝ), a ∈ Set.Icc lo hi → b ∈ Set.Icc lo hi → F a * F b < 0 →
      m ≤ |F a| → m ≤ |F b| →
      F b - F a ≠ 0 ∧ a - F a * (b - a) / (F b - F a) ∈ Set.Icc lo hi ∧
      |a - F a * (b - a) / (F b - F a) - a| ≤ (1 - m / (2 * M)) * |b - a| ∧
      |b - (a - F a * (b - a) / (F b - F a))| ≤ (1 - m / (2 * M)) * |b - a| ∧
      0 ≤ 1 - m / (2 * M) ∧ 1 - m / (2 * M) ≤ 1 := by
    intro a b ha hb hab hma hmb
    have hMpos : 0 < M := lt_of_lt_of_le hm (le_trans hma (hM a ha))
    have hfrac : 0 < m / (2 * M) := by positivity
    obtain ⟨ht1, ht2⟩ := falsi_weight_bounds hab hm hma hmb (hM a ha) (hM b hb)
    have hne : F b - F a ≠ 0 := by
      intro h0
      have : F b = F a := by linarith
      rw [this] at hab
      nlinarith [mul_self_nonneg (F a)]
    have hc : a - F a * (b - a) / (F b - F a) = a + -F a / (F b - F a) * (b - a) := by ring
    have ht0 : 0 ≤ -F a / (F b - F a) := le_trans hfrac.le ht1
    have ht3 : -F a / (F b - F a) ≤ 1 := by linarith
    refine ⟨hne, ?_, ?_, ?_, by linarith, by linarith⟩
    · rw [hc]
      constructor
      · nlinarith [mul_nonneg ht0 (sub_nonneg.mpr hb.1),
          mul_nonneg (sub_nonneg.mpr ht3) (sub_nonneg.mpr ha.1)]
      · nlinarith [mul_nonneg ht0 (sub_nonneg.mpr hb.2),
          mul_nonneg (sub_nonneg.mpr ht3) (sub_nonneg.mpr ha.2)]
    · rw [hc, add_sub_cancel_left, abs_mul, abs_of_nonneg ht0]
      exact mul_le_mul_of_nonneg_right ht2 (abs_nonneg _)
    · have : b - (a + -F a / (F b - F a) * (b - a)) = (1 - -F a / (F b - F a)) * (b - a) := by
        ring
      rw [hc, this, abs_mul, abs_of_nonneg (sub_nonneg.mpr ht3)]
      exact mul_le_mul_of_nonneg_right (by linarith) (abs_nonneg _)
  intro n
  induction n with
  | zero =>
    intro a b ha hb hab hma hmb hw
    obtain ⟨hne, hc, hca, hcb, hq0, hq1⟩ := key a b ha hb hab hma hmb
    have hw0 : |b - a| < δ := by simpa using hw
    have hq : (1 - m / (2 * M)) * |b - a| ≤ |b - a| :=
      mul_le_of_le_one_left (abs_nonneg _) hq1
    have hcb2 : |a - F a * (b - a) / (F b - F a) - b| < δ := by
      rw [abs_sub_comm]
      linarith
    have h1 : |F (a - F a * (b - a) / (F b - F a))| < 1 / 1000000 :=
      abs_lt_of_opposite_signs hab (hδ _ hc _ ha (by linarith)) (hδ _ hc _ hb hcb2)
    exact ⟨_, hc, by rw [regulaFalsiLoop_fin f F hf _ _ _ hne, if_pos h1], h1⟩
  | succ n ih =>
    intro a b ha hb hab hma hmb hw
    obtain ⟨hne, hc, hca, hcb, hq0, hq1⟩ := key a b ha hb hab hma hmb
    rw [regulaFalsiLoop_fin f F hf _ _ _ hne]
    by_cases h1 : |F (a - F a * (b - a) / (F b - F a))| < 1 / 1000000
    · exact ⟨_, hc, by rw [if_pos h1], h1⟩
    · rw [if_neg h1]
      have hmc : m ≤ |F (a - F a * (b - a) / (F b - F a))| := le_trans hmtol (not_lt.mp h1)
      have hcz : F (a - F a * (b - a) / (F b - F a)) ≠ 0 := by
        intro h0
        rw [h0, abs_zero] at hmc
        linarith
      have hpow : 0 ≤ (1 - m / (2 * M)) ^ n := pow_nonneg hq0 n
      have hw2 : (1 - m / (2 * M)) * |b - a| * (1 - m / (2 * M)) ^ n < δ := by
        have : (1 - m / (2 * M)) * |b - a| * (1 - m / (2 * M)) ^ n
            = |b - a| * (1 - m / (2 * M)) ^ (n + 1) := by ring
        rw [this]
        exact hw
      by_cases h2 : F a * F (a - F a * (b - a) / (F b - F a)) < 0
      · rw [if_pos h2]
        apply ih a _ ha hc h2 hma hmc
        exact lt_of_le_of_lt (mul_le_mul_of_nonneg_right hca hpow) hw2
      · rw [if_neg h2]
        apply ih _ b hc hb (sign_change_right hab hcz h2) hmc hmb
        exact lt_of_le_of_lt (mul_le_mul_of_nonneg_right hcb hpow) hw2

/-- C2, in exact real arithmetic: for `f` continuous on the interval between `a` and
`b`, with `f(a)*f(b) < 0`, `regula_falsi(f, a, b)` returns (some fuel is enough), returns
success, and the root it writes has `|f(root)| < 1e-6`. -/
theorem regula_falsi_continuous_success (f : Dbl ℝ → Dbl ℝ) (F : ℝ → ℝ)
    (hf : ∀ x, f (fin x) = fin (F x)) (a b : ℝ) (hF : ContinuousOn F (Set.uIcc a b))
    (hab : F a * F b < 0) :
    ∃ fuel r, regula_falsi fuel f (fin a) (fin b) = some (Outcome.success (fin r)) ∧
      |F r| < 1 / 1000000 := by
  have huc := isCompact_uIcc.uniformContinuousOn_of_continuous hF
  rw [Metric.uniformContinuousOn_iff] at huc
  obtain ⟨δ, hδ0, hδ⟩ := huc (1 / 1000000) (by norm_num)
  obtain ⟨M, hM⟩ := isCompact_uIcc.exists_bound_of_continuousOn hF
  have hFa : F a ≠ 0 := fun h => by rw [h, zero_mul] at hab; exact lt_irrefl _ hab
  have hFb : F b ≠ 0 := fun h => by rw [h, mul_zero] at hab; exact lt_irrefl _ hab
  have hm : 0 < min (1 / 1000000) (min |F a| |F b|) :=
    lt_min (by norm_num) (lt_min (abs_pos.mpr hFa) (abs_pos.mpr hFb))
  have hMa : |F a| ≤ M := by simpa using hM a Set.left_mem_uIcc
  have hMpos : 0 < M := lt_of_lt_of_le (abs_pos.mpr hFa) hMa
  have hq1 : 1 - min (1 / 1000000) (min |F a| |F b|) / (2 * M) < 1 := by
    have : 0 < min (1 / 1000000) (min |F a| |F b|) / (2 * M) := by positivity
    linarith
  obtain ⟨n, hn⟩ := exists_pow_lt_of_lt_one
    (div_pos hδ0 (by positivity : (0 : ℝ) < |b - a| + 1)) hq1
  have hq0 : 0 ≤ 1 - min (1 / 1000000) (min |F a| |F b|) / (2 * M) := by
    have h1 : min (1 / 1000000) (min |F a| |F b|) ≤ M :=
      le_trans (min_le_right _ _) (le_trans (min_le_left _ _) hMa)
    have h2 : min (1 / 1000000) (min |F a| |F b|) / (2 * M) ≤ 1 := by
      rw [div_le_one (by positivity)]
      linarith
    linarith
  have hw : |b - a| * (1 - min (1 / 1000000) (min |F a| |F b|) / (2 * M)) ^ n < δ := by
    rw [lt_div_iff₀ (by positivity)] at hn
    nlinarith [pow_nonneg hq0 n, abs_nonneg (b - a)]
  obtain ⟨r, _, hr, hFr⟩ := regulaFalsiLoop_returns f F hf (min a b) (max a b) δ
    (min (1 / 1000000) (min |F a| |F b|)) M
    (fun x hx y hy hxy => by
      have := hδ x hx y hy (by rwa [Real.dist_eq])
      rwa [Real.dist_eq] at this)
    hm (min_le_left _ _) (fun x hx => by simpa using hM x hx)
    n a b Set.left_mem_uIcc Set.right_mem_uIcc hab
    (le_trans (min_le_right _ _) (min_le_left _ _))
    (le_trans (min_le_right _ _) (min_le_right _ _)) hw
  exact ⟨n + 1, r, by rw [regula_falsi_fin f F hf, if_neg (not_le.mpr hab)]; exact hr, hFr⟩

/-- A case of C2: `f(x) = x^2 - 2` on `[1, 2]` returns success with a root at which
`|x^2 - 2| < 1e-6`. -/
theorem regula_falsi_continuous_success_witness :
    ∃ fuel r, regula_falsi fuel (fun x : Dbl ℝ => x * x - fin 2) (fin 1) (fin 2) =
        some (Outcome.success (fin r)) ∧ |r * r - 2| < 1 / 1000000 :=
  regula_falsi_continuous_success (fun x : Dbl ℝ => x * x - fin 2) (fun x => x * x - 2)
    (fun x => by simp) 1 2 (by fun_prop) (by norm_num)

/-! ## Single iterations with the new point given

The three ways an iteration of a bracketing loop can go, and the three ways an
iteration of `newton_raphson` can go, with the value of the new point as a hypothesis. -/

/-- An iteration of the loop of `bisection` that moves `b` to the midpoint `c`. -/
theorem bisectionLoop_fin_left (f : Dbl α → Dbl α) (F : α → α)
    (hf : ∀ x, f (fin x) = fin (F x)) (fuel : Nat) (a b c : α) (hc : (a + b) / 2 = c)
    (h1 : ¬|F c| < 1 / 1000000) (h2 : F a * F c < 0) :
    bisectionLoop f (fuel + 1) (fin a) (fin b) = bisectionLoop f fuel (fin a) (fin c) := by
  rw [bisectionLoop_fin f F hf, hc, if_neg h1, if_pos h2]

/-- An iteration of the loop of `bisection` that moves `a` to the midpoint `c`. -/
theorem bisectionLoop_fin_right (f : Dbl α → Dbl α) (F : α → α)
    (hf : ∀ x, f (fin x) = fin (F x)) (fuel : Nat) (a b c : α) (hc : (a + b) / 2 = c)
    (h1 : ¬|F c| < 1 / 1000000) (h2 : ¬F a * F c < 0) :
    bisectionLoop f (fuel + 1) (fin a) (fin b) = bisectionLoop f fuel (fin c) (fin b) := by
  rw [bisectionLoop_fin f F hf, hc, if_neg h1, if_neg h2]

/-- An iteration of the loop of `bisection` that returns the midpoint `c`. -/
theorem bisectionLoop_fin_done (f : Dbl α → Dbl α) (F : α → α)
    (hf : ∀ x, f (fin x) = fin (F x)) (fuel : Nat) (a b c : α) (hc : (a + b) / 2 = c)
    (h1 : |F c| < 1 / 1000000) :
    bisectionLoop f (fuel + 1) (fin a) (fin b) = some (Outcome.success (fin c)) := by
  rw [bisectionLoop_fin f F hf, hc, if_pos h1]

/-- An iteration of the loop of `regula_falsi` that moves `b` to the new point `c`. -/
theorem regulaFalsiLoop_fin_left (f : Dbl α → Dbl α) (F : α → α)
    (hf : ∀ x, f (fin x) = fin (F x)) (fuel : Nat) (a b c : α) (hab : F b - F a ≠ 0)
    (hc : a - F a * (b - a) / (F b - F a) = c)
    (h1 : ¬|F c| < 1 / 1000000) (h2 : F a * F c < 0) :
    regulaFalsiLoop f (fuel + 1) (fin a) (fin b) = regulaFalsiLoop f fuel (fin a) (fin c) := by
  rw [regulaFalsiLoop_fin f F hf _ _ _ hab, hc, if_neg h1, if_pos h2]

/-- An iteration of the loop of `regula_falsi` that moves `a` to the new point `c`. -/
theorem regulaFalsiLoop_fin_right (f : Dbl α → Dbl α) (F : α → α)
    (hf : ∀ x, f (fin x) = fin (F x)) (fuel : Nat) (a b c : α) (hab : F b - F a ≠ 0)
    (hc : a - F a * (b - a) / (F b - F a) = c)
    (h1 : ¬|F c| < 1 / 1000000) (h2 : ¬F a * F c < 0) :
    regulaFalsiLoop f (fuel + 1) (fin a) (fin b) = regulaFalsiLoop f fuel (fin c) (fin b) := by
  rw [regulaFalsiLoop_fin f F hf _ _ _ hab, hc, if_neg h1, if_neg h2]

/-- An iteration of the loop of `regula_falsi` that returns the new point `c`. -/
theorem regulaFalsiLoop_fin_done (f : Dbl α → Dbl α) (F : α → α)
    (hf : ∀ x, f (fin x) = fin (F x)) (fuel : Nat) (a b c : α) (hab : F b - F a ≠ 0)
    (hc : a - F a * (b - a) / (F b - F a) = c) (h1 : |F c| < 1 / 1000000) :
    regulaFalsiLoop f (fuel + 1) (fin a) (fin b) = some (Outcome.success (fin c)) := by
  rw [regulaFalsiLoop_fin f F hf _ _ _ hab, hc, if_pos h1]

/-- An iteration of `newton_raphson` that goes on from the new iterate `r`. -/
theorem newton_raphson_fin_next (f g : Dbl α → Dbl α) (F G : α → α)
    (hf : ∀ x, f (fin x) = fin (F x)) (hg : ∀ x, g (fin x) = fin (G x))
    (fuel : Nat) (a b c r : α) (hc : G c ≠ 0) (hr : c - F c / G c = r)
    (h1 : ¬(r < a ∨ b < r)) (h2 : ¬|c - r| < 1 / 1000000) :
    newton_raphson f g (fin a) (fin b) (fuel + 1) (fin c) =
      newton_raphson f g (fin a) (fin b) fuel (fin r) := by
  rw [newton_raphson_fin f g F G hf hg _ _ _ _ hc, hr, if_neg h1, if_neg h2]

/-- An iteration of `newton_raphson` that returns the new iterate `r`. -/
theorem newton_raphson_fin_done (f g : Dbl α → Dbl α) (F G : α → α)
    (hf : ∀ x, f (fin x) = fin (F x)) (hg : ∀ x, g (fin x) = fin (G x))
    (fuel : Nat) (a b c r : α) (hc : G c ≠ 0) (hr : c - F c / G c = r)
    (h1 : ¬(r < a ∨ b < r)) (h2 : |c - r| < 1 / 1000000) :
    newton_raphson f g (fin a) (fin b) (fuel + 1) (fin c) =
      some (Outcome.success (fin r)) := by
  rw [newton_raphson_fin f g F G hf hg _ _ _ _ hc, hr, if_neg h1, if_pos h2]

/-- An iteration of `newton_raphson` whose new iterate `r` leaves `[a, b]`. -/
theorem newton_raphson_fin_fail (f g : Dbl α → Dbl α) (F G : α → α)
    (hf : ∀ x, f (fin x) = fin (F x)) (hg : ∀ x, g (fin x) = fin (G x))
    (fuel : Nat) (a b c r : α) (hc : G c ≠ 0) (hr : c - F c / G c = r)
    (h1 : r < a ∨ b < r) :
    newton_raphson f g (fin a) (fin b) (fuel + 1) (fin c) = some Outcome.failure := by
  rw [newton_raphson_fin f g F G hf hg _ _ _ _ hc, hr, if_pos h1]

/-! ## The scenarios of the specification -/

/-- The scenario of C1 run: `f(x) = x - 2` on `[0, 10]` returns success on the 22nd
iteration (and so with any fuel of at least 22), with a root within `1e-6` of 2. -/
theorem bisection_linear_scenario :
    (∀ fuel, 22 ≤ fuel → bisection fuel (fun x : Dbl ℚ => x - fin 2) (fin 0) (fin 10) =
      some (Outcome.success (fin (4194305 / 2097152)))) ∧
    |(4194305 / 2097152 : ℚ) - 2| < 1 / 1000000 := by
  have hf : ∀ x : ℚ, (fun x : Dbl ℚ => x - fin 2) (fin x) = fin (x - 2) := fun x => by simp
  refine ⟨?_, by norm_num [abs_lt]⟩
  intro fuel hfuel
  obtain ⟨k, rfl⟩ := Nat.exists_eq_add_of_le hfuel
  rw [bisection_fin _ _ hf, if_neg (by norm_num), Nat.add_comm 22 k]
  rw [bisectionLoop_fin_left _ _ hf _ 0 10 5 (by norm_num)
    (by norm_num [abs_lt]) (by norm_num)]
  rw [bisectionLoop_fin_left _ _ hf _ 0 5 (5 / 2) (by norm_num)
    (by norm_num [abs_lt]) (by norm_num)]
  rw [bisectionLoop_fin_right _ _ hf _ 0 (5 / 2) (5 / 4) (by norm_num)
    (by norm_num [abs_lt]) (by norm_num)]
  rw [bisectionLoop_fin_right _ _ hf _ (5 / 4) (5 / 2) (15 / 8) (by norm_num)
    (by norm_num [abs_lt]) (by norm_num)]
  rw [bisectionLoop_fin_left _ _ hf _ (15 / 8) (5 / 2) (35 / 16) (by norm_num)
    (by norm_num [abs_lt]) (by norm_num)]
  rw [bisectionLoop_fin_left _ _ hf _ (15 / 8) (35 / 16) (65 / 32) (by norm_num)
    (by norm_num [abs_lt]) (by norm_num)]
  rw [bisectionLoop_fin_right _ _ hf _ (15 / 8) (65 / 32) (125 / 64) (by norm_num)
    (by norm_num [abs_lt]) (by norm_num)]
  rw [bisectionLoop_fin_right _ _ hf _ (125 / 64) (65 / 32) (255 / 128) (by norm_num)
    (by norm_num [abs_lt]) (by norm_num)]
  rw [bisectionLoop_fin_left _ _ hf _ (255 / 128) (65 / 32) (515 / 256) (by norm_num)
    (by norm_num [abs_lt]) (by norm_num)]
  rw [bisectionLoop_fin_left _ _ hf _ (255 / 128) (515 / 256) (1025 / 512) (by norm_num)
    (by norm_num [abs_lt]) (by norm_num)]
  rw [bisectionLoop_fin_right _ _ hf _ (255 / 128) (1025 / 512) (2045 / 1024) (by norm_num)
    (by norm_num [abs_lt]) (by norm_num)]
  rw [bisectionLoop_fin_right _ _ hf _ (2045 / 1024) (1025 / 512) (4095 / 2048) (by norm_num)
    (by norm_num [abs_lt]) (by norm_num)]
  rw [bisectionLoop_fin_left _ _ hf _ (4095 / 2048) (1025 / 512) (8195 / 4096) (by norm_num)
    (by norm_num [abs_lt]) (by norm_num)]
  rw [bisectionLoop_fin_left _ _ hf _ (4095 / 2048) (8195 / 4096) (16385 / 8192) (by norm_num)
    (by norm_num [abs_lt]) (by norm_num)]
  rw [bisectionLoop_fin_right _ _ hf _ (4095 / 2048) (16385 / 8192) (32765 / 16384) (by norm_num)
    (by norm_num [abs_lt]) (by norm_num)]
  rw [bisectionLoop_fin_right _ _ hf _ (32765 / 16384) (16385 / 8192) (65535 / 32768) (by norm_num)
    (by norm_num [abs_lt]) (by norm_num)]
  rw [bisectionLoop_fin_left _ _ hf _ (65535 / 32768) (16385 / 8192) (131075 / 65536) (by norm_num)
    (by norm_num [abs_lt]) (by norm_num)]
  rw [bisectionLoop_fin_left _ _ hf _ (65535 / 32768) (131075 / 65536) (262145 / 131072) (by norm_num)
    (by norm_num [abs_lt]) (by norm_num)]
  rw [bisectionLoop_fin_right _ _ hf _ (65535 / 32768) (262145 / 131072) (524285 / 262144) (by norm_num)
    (by norm_num [abs_lt]) (by norm_num)]
  rw [bisectionLoop_fin_right _ _ hf _ (524285 / 262144) (262145 / 131072) (1048575 / 524288) (by norm_num)
    (by norm_num [abs_lt]) (by norm_num)]
  rw [bisectionLoop_fin_left _ _ hf _ (1048575 / 524288) (262145 / 131072) (2097155 / 1048576) (by norm_num)
    (by norm_num [abs_lt]) (by norm_num)]
  rw [bisectionLoop_fin_done _ _ hf _ (1048575 / 524288) (2097155 / 1048576) (4194305 / 2097152) (by norm_num) (by norm_num [abs_lt])]

/-- C9: for `f(x) = x^2 - 2`, `regula_falsi(f, 1, 2)` returns success (on its 9th
iteration, and so with any fuel of at least 9), and the root it writes is within `1e-6`
of `1.41421356` and of the square root of 2. -/
theorem regula_falsi_sqrt_two_scenario :
    (∀ fuel, 9 ≤ fuel → regula_falsi fuel (fun x : Dbl ℚ => x * x - fin 2) (fin 1) (fin 2) =
      some (Outcome.success (fin (4756 / 3363)))) ∧
    |(4756 / 3363 : ℚ) - 1.41421356| < 1 / 1000000 ∧
    |((4756 / 3363 : ℚ) : ℝ) - Real.sqrt 2| < 1 / 1000000 := by
  have hf : ∀ x : ℚ, (fun x : Dbl ℚ => x * x - fin 2) (fin x) = fin (x * x - 2) :=
    fun x => by simp
  refine ⟨?_, by norm_num [abs_lt], ?_⟩
  · intro fuel hfuel
    obtain ⟨k, rfl⟩ := Nat.exists_eq_add_of_le hfuel
    rw [regula_falsi_fin _ _ hf, if_neg (by norm_num), Nat.add_comm 9 k]
    rw [regulaFalsiLoop_fin_right _ _ hf _ 1 2 (4 / 3) (by norm_num)
      (by norm_num) (by norm_num [abs_lt]) (by norm_num)]
    rw [regulaFalsiLoop_fin_right _ _ hf _ (4 / 3) 2 (7 / 5) (by norm_num)
      (by norm_num) (by norm_num [abs_lt]) (by norm_num)]
    rw [regulaFalsiLoop_fin_right _ _ hf _ (7 / 5) 2 (24 / 17) (by norm_num)
      (by norm_num) (by norm_num [abs_lt]) (by norm_num)]
    rw [regulaFalsiLoop_fin_right _ _ hf _ (24 / 17) 2 (41 / 29) (by norm_num)
      (by norm_num) (by norm_num [abs_lt]) (by norm_num)]
    rw [regulaFalsiLoop_fin_right _ _ hf _ (41 / 29) 2 (140 / 99) (by norm_num)
      (by norm_num) (by norm_num [abs_lt]) (by norm_num)]
    rw [regulaFalsiLoop_fin_right _ _ hf _ (140 / 99) 2 (239 / 169) (by norm_num)
      (by norm_num) (by norm_num [abs_lt]) (by norm_num)]
    rw [regulaFalsiLoop_fin_right _ _ hf _ (239 / 169) 2 (816 / 577) (by norm_num)
      (by norm_num) (by norm_num [abs_lt]) (by norm_num)]
    rw [regulaFalsiLoop_fin_right _ _ hf _ (816 / 577) 2 (1393 / 985) (by norm_num)
      (by norm_num) (by norm_num [abs_lt]) (by norm_num)]
    rw [regulaFalsiLoop_fin_done _ _ hf _ (1393 / 985) 2 (4756 / 3363) (by norm_num)
      (by norm_num) (by norm_num [abs_lt])]
  · rw [abs_lt]
    constructor
    · have h : Real.sqrt 2 < 4756 / 3363 + 1 / 1000000 := by
        rw [Real.sqrt_lt' (by norm_num)]; norm_num
      push_cast; linarith
    · have h : (4756 / 3363 - 1 / 1000000 : ℝ) < Real.sqrt 2 := by
        rw [Real.lt_sqrt (by norm_num)]; norm_num
      push_cast; linarith

/-- C10: for `f(x) = x^2 - 4`, `g(x) = 2x`, `newton_raphson(f, g, 0, 10, 3)` returns
success (on its 5th iteration, and so with any fuel of at least 5), and the root it
writes is within `1e-6` of 2. -/
theorem newton_raphson_square_scenario :
    (∀ fuel, 5 ≤ fuel →
      newton_raphson (fun x : Dbl ℚ => x * x - fin 4) (fun x => fin 2 * x)
        (fin 0) (fin 10) fuel (fin 3) =
      some (Outcome.success (fin (11641532182693481445313 / 5820766091346740722656)))) ∧
    |(11641532182693481445313 / 5820766091346740722656 : ℚ) - 2| < 1 / 1000000 := by
  have hf : ∀ x : ℚ, (fun x : Dbl ℚ => x * x - fin 4) (fin x) = fin (x * x - 4) :=
    fun x => by simp
  have hg : ∀ x : ℚ, (fun x : Dbl ℚ => fin 2 * x) (fin x) = fin (2 * x) := fun x => by simp
  refine ⟨?_, by norm_num [abs_lt]⟩
  intro fuel hfuel
  obtain ⟨k, rfl⟩ := Nat.exists_eq_add_of_le hfuel
  rw [Nat.add_comm 5 k]
  rw [newton_raphson_fin_next _ _ _ _ hf hg _ _ _ 3
    (13 / 6)
    (by norm_num) (by norm_num) (by norm_num) (by norm_num [abs_lt])]
  rw [newton_raphson_fin_next _ _ _ _ hf hg _ _ _ (13 / 6)
    (313 / 156)
    (by norm_num) (by norm_num) (by norm_num) (by norm_num [abs_lt])]
  rw [newton_raphson_fin_next _ _ _ _ hf hg _ _ _ (313 / 156)
    (195313 / 97656)
    (by norm_num) (by norm_num) (by norm_num) (by norm_num [abs_lt])]
  rw [newton_raphson_fin_next _ _ _ _ hf hg _ _ _ (195313 / 97656)
    (76293945313 / 38146972656)
    (by norm_num) (by norm_num) (by norm_num) (by norm_num [abs_lt])]
  rw [newton_raphson_fin_done _ _ _ _ hf hg _ _ _ (76293945313 / 38146972656)
    (11641532182693481445313 / 5820766091346740722656)
    (by norm_num) (by norm_num) (by norm_num) (by norm_num [abs_lt])]

/-! ## Bisection that never returns -/

/-- An iteration of the loop of `bisection` returns the midpoint or goes on from the
updated bracket. -/
theorem bisectionLoop_succ (f : Dbl α → Dbl α) (fuel : Nat) (a b : Dbl α) :
    bisectionLoop f (fuel + 1) a b =
      if Dbl.lt (Dbl.abs (f ((a + b) / fin 2))) tolerance then
        some (Outcome.success ((a + b) / fin 2))
      else bisectionLoop f fuel (bisectionUpdate f (a, b)).1 (bisectionUpdate f (a, b)).2 := by
  simp only [bisectionLoop, bisectionUpdate]
  split_ifs <;> rfl

/-- The brackets from `(a, b)` on, after the first, are the brackets from the updated
bracket on. -/
theorem bisectionBracket_succ (f : Dbl α → Dbl α) (a b : Dbl α) (n : Nat) :
    bisectionBracket f a b (n + 1) =
      bisectionBracket f (bisectionUpdate f (a, b)).1 (bisectionUpdate f (a, b)).2 n := by
  simp only [bisectionBracket, Function.iterate_succ_apply]

/-- If no midpoint passes the tolerance test, the loop of `bisection` does not return. -/
theorem bisectionLoop_eq_none (f : Dbl α → Dbl α) (fuel : Nat) :
    ∀ a b : Dbl α,
      (∀ n, Dbl.lt (Dbl.abs (f (bisectionMid f a b n))) tolerance = false) →
      bisectionLoop f fuel a b = none := by
  induction fuel with
  | zero => intro a b _; rfl
  | succ k ih =>
    intro a b h
    have h0 : Dbl.lt (Dbl.abs (f ((a + b) / fin 2))) tolerance = false := h 0
    rw [bisectionLoop_succ, h0]
    simp only [Bool.false_eq_true, if_false]
    apply ih
    intro n
    have := h (n + 1)
    simpa only [bisectionMid, bisectionBracket_succ] using this

/-- C11: for every `f`, `a`, `b` with `f(a)*f(b) < 0` such that no midpoint of the
bisection sequence has `|f(c)| < 1e-6`, `bisection(f, a, b)` never returns: no fuel is
enough. -/
theorem bisection_never_returns (f : Dbl α → Dbl α) (a b : Dbl α)
    (hab : Dbl.lt (f a * f b) (fin 0) = true)
    (hmid : ∀ n, Dbl.lt (Dbl.abs (f (bisectionMid f a b n))) tolerance = false)
    (fuel : Nat) : bisection fuel f a b = none := by
  rw [bisection, Dbl.ge_zero_eq_false_of_lt _ hab]
  simp only [Bool.false_eq_true, if_false]
  exact bisectionLoop_eq_none f fuel a b hmid

/-- The step function has size 1 everywhere. -/
theorem stepFunction_abs (x : Dbl α) :
    Dbl.lt (Dbl.abs (stepFunction x)) tolerance = false := by
  unfold stepFunction
  split_ifs <;> norm_num [tolerance, le_abs]

/-- The scenario of C11: the step function on `[-1, 1]` satisfies the entry test and
`bisection` never returns on it. -/
theorem bisection_never_returns_witness :
    Dbl.lt ((stepFunction (fin (-1) : Dbl ℚ)) * stepFunction (fin 1)) (fin 0) = true ∧
    ∀ fuel, bisection fuel stepFunction (fin (-1) : Dbl ℚ) (fin 1) = none :=
  ⟨by norm_num [stepFunction], fun fuel =>
    bisection_never_returns stepFunction (fin (-1)) (fin 1) (by norm_num [stepFunction])
      (fun _ => stepFunction_abs _) fuel⟩

/-! ## The result depends on the arguments only -/

/-- A loop of `secant` that returned keeps its result with more fuel. -/
theorem secantLoop_mono (f : Dbl α → Dbl α) (a b : Dbl α) (fuel k : Nat) (c d : Dbl α)
    (out : Outcome α) (h : secantLoop f a b fuel c d = some out) :
    secantLoop f a b (fuel + k) c d = some out := by
  induction fuel generalizing c d with
  | zero => simp [secantLoop] at h
  | succ n ih =>
    rw [Nat.succ_add]
    simp only [secantLoop] at h ⊢
    split_ifs at h ⊢ with h1 h2
    · exact h
    · exact h
    · exact ih _ _ h

/-- Two runs of a fuel-indexed function that keeps its result with more fuel return
the same thing. -/
theorem eq_of_fuel_mono {β : Type} (run : Nat → Option β)
    (hmono : ∀ fuel k out, run fuel = some out → run (fuel + k) = some out)
    (n₁ n₂ : Nat) (out₁ out₂ : β) (h₁ : run n₁ = some out₁) (h₂ : run n₂ = some out₂) :
    out₁ = out₂ := by
  rcases Nat.le_total n₁ n₂ with h | h
  · obtain ⟨k, rfl⟩ := Nat.exists_eq_add_of_le h
    have := hmono n₁ k out₁ h₁
    rw [h₂] at this
    exact (Option.some.inj this).symm
  · obtain ⟨k, rfl⟩ := Nat.exists_eq_add_of_le h
    have := hmono n₂ k out₂ h₂
    rw [h₁] at this
    exact Option.some.inj this

/-- C12: each of `bisection`, `regula_falsi`, `newton_raphson` and `secant` is a function
of its arguments: two calls on the same `f` (and `g`) and the same numbers that return,
whatever the fuel each is given, return the same success flag and the same root. -/
theorem root_finders_deterministic (f g : Dbl α → Dbl α) (a b c : Dbl α) (n₁ n₂ : Nat)
    (out₁ out₂ : Outcome α) :
    (bisection n₁ f a b = some out₁ → bisection n₂ f a b = some out₂ → out₁ = out₂) ∧
    (regula_falsi n₁ f a b = some out₁ → regula_falsi n₂ f a b = some out₂ →
      out₁ = out₂) ∧
    (newton_raphson f g a b n₁ c = some out₁ → newton_raphson f g a b n₂ c = some out₂ →
      out₁ = out₂) ∧
    (secant n₁ f a b c = some out₁ → secant n₂ f a b c = some out₂ → out₁ = out₂) := by
  refine ⟨?_, ?_, ?_, ?_⟩
  · refine eq_of_fuel_mono (fun n => bisection n f a b) ?_ n₁ n₂ out₁ out₂
    intro fuel k out h
    simp only [bisection] at h ⊢
    split_ifs at h ⊢
    · exact h
    · exact bisectionLoop_mono f fuel k a b out h
  · refine eq_of_fuel_mono (fun n => regula_falsi n f a b) ?_ n₁ n₂ out₁ out₂
    intro fuel k out h
    simp only [regula_falsi] at h ⊢
    split_ifs at h ⊢
    · exact h
    · exact regulaFalsiLoop_mono f fuel k a b out h
  · exact eq_of_fuel_mono (fun n => newton_raphson f g a b n c)
      (fun fuel k out h => newton_raphson_mono f g a b fuel k c out h) n₁ n₂ out₁ out₂
  · exact eq_of_fuel_mono (fun n => secant n f a b c)
      (fun fuel k out h => secantLoop_mono f a b fuel k c _ out h) n₁ n₂ out₁ out₂

/-! ## The bracket invariant of bisection -/

/-- The update of a finite bracket, for a number-valued `f`. -/
theorem bisectionUpdate_fin (f : Dbl α → Dbl α) (F : α → α)
    (hf : ∀ x, f (fin x) = fin (F x)) (a b : α) :
    bisectionUpdate f (fin a, fin b) =
      if F a * F ((a + b) / 2) < 0 then (fin a, fin ((a + b) / 2))
      else (fin ((a + b) / 2), fin b) := by
  have h2 : (2 : α) ≠ 0 := two_ne_zero
  simp only [bisectionUpdate, Dbl.fin_add_fin, Dbl.fin_div_fin_of_ne _ h2, hf,
    Dbl.fin_mul_fin, Dbl.lt_fin_fin, decide_eq_true_eq]

/-- One iteration that does not return keeps the sign change, replaces one endpoint by
the midpoint and halves the width. -/
theorem bisectionUpdate_invariant (f : Dbl α → Dbl α) (F : α → α)
    (hf : ∀ x, f (fin x) = fin (F x)) (a b : α) (hab : F a * F b < 0)
    (hc : ¬|F ((a + b) / 2)| < 1 / 1000000) :
    ∃ a' b', bisectionUpdate f (fin a, fin b) = (fin a', fin b') ∧
      ((a' = a ∧ b' = (a + b) / 2 ∧ b' ≠ b) ∨ (a' = (a + b) / 2 ∧ b' = b ∧ a' ≠ a)) ∧
      F a' * F b' < 0 ∧ |b' - a'| = |b - a| / 2 := by
  have hne : a ≠ b := by
    rintro rfl
    exact absurd hab (not_lt.mpr (mul_self_nonneg _))
  have hcz : F ((a + b) / 2) ≠ 0 := by
    intro h0
    rw [h0, abs_zero] at hc
    exact hc (by norm_num)
  rw [bisectionUpdate_fin f F hf]
  by_cases h2 : F a * F ((a + b) / 2) < 0
  · refine ⟨a, (a + b) / 2, by rw [if_pos h2], Or.inl ⟨rfl, rfl, ?_⟩, h2, ?_⟩
    · intro h
      apply hne
      linarith
    · have : (a + b) / 2 - a = (b - a) / 2 := by ring
      rw [this, abs_div, abs_two]
  · refine ⟨(a + b) / 2, b, by rw [if_neg h2], Or.inr ⟨rfl, rfl, ?_⟩,
      sign_change_right hab hcz h2, ?_⟩
    · intro h
      apply hne
      linarith
    · have : b - (a + b) / 2 = (b - a) / 2 := by ring
      rw [this, abs_div, abs_two]

/-- C13, in exact arithmetic: for a number-valued `f` and finite numbers `a`, `b` with
`f(a)*f(b) < 0`: an iteration of `bisection` that does not return replaces exactly one
endpoint by the midpoint `c = (a+b)/2`, the new bracket again has `f(a')*f(b') < 0`, and
its width is half the old one; after `n` iterations that did not return, the loop is at
a bracket of width `|b - a| / 2^n` with a sign change. -/
theorem bisection_bracket_invariant (f : Dbl α → Dbl α) (F : α → α)
    (hf : ∀ x, f (fin x) = fin (F x)) (a b : α) (hab : F a * F b < 0) :
    (¬|F ((a + b) / 2)| < 1 / 1000000 →
      ∃ a' b', bisectionUpdate f (fin a, fin b) = (fin a', fin b') ∧
        ((a' = a ∧ b' = (a + b) / 2 ∧ b' ≠ b) ∨ (a' = (a + b) / 2 ∧ b' = b ∧ a' ≠ a)) ∧
        F a' * F b' < 0 ∧ |b' - a'| = |b - a| / 2 ∧
        ∀ fuel, bisectionLoop f (fuel + 1) (fin a) (fin b) =
          bisectionLoop f fuel (fin a') (fin b')) ∧
    (∀ n, (∀ m, m < n →
        Dbl.lt (Dbl.abs (f (bisectionMid f (fin a) (fin b) m))) tolerance = false) →
      ∃ aₙ bₙ, bisectionBracket f (fin a) (fin b) n = (fin aₙ, fin bₙ) ∧
        F aₙ * F bₙ < 0 ∧ |bₙ - aₙ| = |b - a| / 2 ^ n ∧
        ∀ fuel, bisectionLoop f (fuel + n) (fin a) (fin b) =
          bisectionLoop f fuel (fin aₙ) (fin bₙ)) := by
  have step : ∀ x y : α, F x * F y < 0 → ¬|F ((x + y) / 2)| < 1 / 1000000 →
      ∃ a' b', bisectionUpdate f (fin x, fin y) = (fin a', fin b') ∧
        ((a' = x ∧ b' = (x + y) / 2 ∧ b' ≠ y) ∨ (a' = (x + y) / 2 ∧ b' = y ∧ a' ≠ x)) ∧
        F a' * F b' < 0 ∧ |b' - a'| = |y - x| / 2 ∧
        ∀ fuel, bisectionLoop f (fuel + 1) (fin x) (fin y) =
          bisectionLoop f fuel (fin a') (fin b') := by
    intro x y hxy hc
    obtain ⟨a', b', hup, hrep, hsign, hw⟩ := bisectionUpdate_invariant f F hf x y hxy hc
    refine ⟨a', b', hup, hrep, hsign, hw, fun fuel => ?_⟩
    have h2 : (2 : α) ≠ 0 := two_ne_zero
    have htest : Dbl.lt (Dbl.abs (f ((fin x + fin y) / fin 2))) tolerance = false := by
      simpa [Dbl.fin_div_fin_of_ne _ h2, hf, tolerance] using hc
    rw [bisectionLoop_succ, htest, hup]
    simp
  refine ⟨step a b hab, ?_⟩
  intro n
  induction n with
  | zero =>
    intro _
    exact ⟨a, b, rfl, hab, by simp, fun fuel => rfl⟩
  | succ n ih =>
    intro hmid
    obtain ⟨x, y, hbr, hxy, hw, hloop⟩ := ih (fun m hm => hmid m (Nat.lt_succ_of_lt hm))
    have h2 : (2 : α) ≠ 0 := two_ne_zero
    have hc : ¬|F ((x + y) / 2)| < 1 / 1000000 := by
      have := hmid n (Nat.lt_succ_self n)
      simpa [bisectionMid, hbr, Dbl.fin_div_fin_of_ne _ h2, hf, tolerance] using this
    obtain ⟨a', b', hup, _, hsign, hw', hloop'⟩ := step x y hxy hc
    refine ⟨a', b', ?_, hsign, ?_, fun fuel => ?_⟩
    · rw [bisectionBracket, Function.iterate_succ_apply', ← bisectionBracket, hbr, hup]
    · rw [hw', hw, pow_succ]
      field_simp
    · rw [show fuel + (n + 1) = fuel + 1 + n by omega, hloop (fuel + 1), hloop' fuel]

/-- A case of C13: `f(x) = x - 2` on `[0, 10]`; the first two iterations do not return
and leave a bracket of width `10 / 2^2` with a sign change. -/
theorem bisection_bracket_invariant_witness :
    ∃ a₂ b₂ : ℚ, bisectionBracket (fun x : Dbl ℚ => x - fin 2) (fin 0) (fin 10) 2 =
        (fin a₂, fin b₂) ∧ (a₂ - 2) * (b₂ - 2) < 0 ∧ |b₂ - a₂| = |(10 : ℚ) - 0| / 2 ^ 2 ∧
        ∀ fuel, bisectionLoop (fun x : Dbl ℚ => x - fin 2) (fuel + 2) (fin 0) (fin 10) =
          bisectionLoop (fun x : Dbl ℚ => x - fin 2) fuel (fin a₂) (fin b₂) :=
  (bisection_bracket_invariant (fun x : Dbl ℚ => x - fin 2) (fun x => x - 2)
    (fun x => by simp) 0 10 (by norm_num)).2 2 (fun m hm => by
      have hf : ∀ x : ℚ, (fun x : Dbl ℚ => x - fin 2) (fin x) = fin (x - 2) :=
        fun x => by simp
      have h0 : bisectionBracket (fun x : Dbl ℚ => x - fin 2) (fin 0) (fin 10) 0 =
          (fin 0, fin 10) := rfl
      have h1 : bisectionBracket (fun x : Dbl ℚ => x - fin 2) (fin 0) (fin 10) 1 =
          (fin 0, fin 5) := by
        rw [bisectionBracket, Function.iterate_succ_apply', ← bisectionBracket, h0,
          bisectionUpdate_fin _ _ hf]
        norm_num
      interval_cases m
      · rw [bisectionMid, h0]
        norm_num [tolerance, le_abs]
      · rw [bisectionMid, h1]
        norm_num [tolerance, le_abs])

/-! ## The root of bisection lies inside the bracket -/

/-- From a bracket of two different numbers inside `[lo, hi]`, a root returned by the
loop of `bisection` lies strictly inside `[lo, hi]`, whatever `f` is. -/
theorem bisectionLoop_root_inside (f : Dbl α → Dbl α) (lo hi : α) (root : Dbl α)
    (fuel : Nat) :
    ∀ x y : α, x ≠ y → lo ≤ x → x ≤ hi → lo ≤ y → y ≤ hi →
      bisectionLoop f fuel (fin x) (fin y) = some (Outcome.success root) →
      ∃ r, root = fin r ∧ lo < r ∧ r < hi := by
  induction fuel with
  | zero => intro x y _ _ _ _ _ h; simp [bisectionLoop] at h
  | succ k ih =>
    intro x y hxy hx1 hx2 hy1 hy2 h
    have h2 : (2 : α) ≠ 0 := two_ne_zero
    have hmid : (fin x + fin y : Dbl α) / fin 2 = fin ((x + y) / 2) := by
      rw [Dbl.fin_add_fin, Dbl.fin_div_fin_of_ne _ h2]
    have hlo : lo < (x + y) / 2 := by
      rcases lt_or_gt_of_ne hxy with h' | h' <;> linarith
    have hhi : (x + y) / 2 < hi := by
      rcases lt_or_gt_of_ne hxy with h' | h' <;> linarith
    rw [bisectionLoop_succ, bisectionUpdate, hmid] at h
    split_ifs at h with h1 h3
    · exact ⟨_, by simpa using (Option.some.inj h).symm, hlo, hhi⟩
    · refine ih x _ ?_ hx1 hx2 hlo.le hhi.le h
      intro hc
      apply hxy
      linarith
    · refine ih _ y ?_ hlo.le hhi.le hy1 hy2 h
      intro hc
      apply hxy
      linarith

/-- From a bracket of one number taken twice, at which `f` is `NaN`, the loop of
`bisection` does not return. -/
theorem bisectionLoop_degenerate (f : Dbl α → Dbl α) (a : α) (hfa : f (fin a) = nan)
    (fuel : Nat) : bisectionLoop f fuel (fin a) (fin a) = none := by
  have h2 : (2 : α) ≠ 0 := two_ne_zero
  have hmid : (fin a + fin a : Dbl α) / fin 2 = fin a := by
    rw [Dbl.fin_add_fin, Dbl.fin_div_fin_of_ne _ h2]
    congr 1
    ring
  induction fuel with
  | zero => rfl
  | succ k ih =>
    rw [bisectionLoop_succ, bisectionUpdate, hmid, hfa]
    simpa [Dbl.abs, Dbl.lt, HMul.hMul, Mul.mul, Dbl.mul] using ih

/-- C14, in exact arithmetic: whenever `bisection(f, a, b)`, on finite numbers `a` and
`b` in either order, returns success, the root it writes is a number with
`min(a,b) < root < max(a,b)`. -/
theorem bisection_root_strictly_inside (f : Dbl α → Dbl α) (a b : α) (fuel : Nat)
    (root : Dbl α) (h : bisection fuel f (fin a) (fin b) = some (Outcome.success root)) :
    ∃ r, root = fin r ∧ min a b < r ∧ r < max a b := by
  by_cases hab : a = b
  · exfalso
    subst hab
    rw [bisection] at h
    cases hfa : f (fin a) with
    | fin x =>
      rw [hfa] at h
      simp [mul_self_nonneg] at h
    | pinf =>
      rw [hfa] at h
      simp [Dbl.ge, HMul.hMul, Mul.mul, Dbl.mul] at h
    | ninf =>
      rw [hfa] at h
      simp [Dbl.ge, HMul.hMul, Mul.mul, Dbl.mul] at h
    | nan =>
      rw [bisectionLoop_degenerate f a hfa] at h
      split_ifs at h
      cases h
  · rw [bisection] at h
    split_ifs at h
    · cases h
    exact bisectionLoop_root_inside f (min a b) (max a b) root fuel a b hab
      (min_le_left a b) (le_max_left a b) (min_le_right a b) (le_max_right a b) h

/-- A case of C14: the root of the scenario `f(x) = x - 2` on `[0, 10]` lies strictly
between 0 and 10. -/
theorem bisection_root_strictly_inside_witness :
    ∃ r : ℚ, (fin (4194305 / 2097152) : Dbl ℚ) = fin r ∧ min 0 10 < r ∧ r < max 0 10 :=
  bisection_root_strictly_inside (fun x : Dbl ℚ => x - fin 2) 0 10 22 _
    (bisection_linear_scenario.1 22 le_rfl)

/-! ## The point of regula falsi lies inside the bracket -/

/-- With `u` and `v` of opposite sign and `x ≠ y`, the interpolation point
`x - u*(y - x)/(v - u)` lies strictly between `x` and `y`. -/
theorem falsi_point_inside {u v x y : α} (huv : u * v < 0) (hxy : x ≠ y) :
    min x y < x - u * (y - x) / (v - u) ∧ x - u * (y - x) / (v - u) < max x y := by
  have hu : u ≠ 0 := fun h => by rw [h, zero_mul] at huv; exact lt_irrefl _ huv
  have hv : v ≠ 0 := fun h => by rw [h, mul_zero] at huv; exact lt_irrefl _ huv
  have hpos : 0 < |u| + |v| := add_pos (abs_pos.mpr hu) (abs_pos.mpr hv)
  have ht0 : 0 < -u / (v - u) := by
    rw [falsi_weight_eq huv]
    exact div_pos (abs_pos.mpr hu) hpos
  have ht1 : -u / (v - u) < 1 := by
    rw [falsi_weight_eq huv, div_lt_one hpos]
    linarith [abs_pos.mpr hv]
  have hc : x - u * (y - x) / (v - u) = x + -u / (v - u) * (y - x) := by ring
  rw [hc]
  rcases lt_or_gt_of_ne hxy with h | h
  · rw [min_eq_left h.le, max_eq_right h.le]
    constructor
    · nlinarith [mul_pos ht0 (sub_pos.mpr h)]
    · nlinarith [mul_pos (sub_pos.mpr ht1) (sub_pos.mpr h)]
  · rw [min_eq_right h.le, max_eq_left h.le]
    constructor
    · nlinarith [mul_pos (sub_pos.mpr ht1) (sub_pos.mpr h)]
    · nlinarith [mul_pos ht0 (sub_pos.mpr h)]

/-- A sign change between `x` and `y` makes `f(y) - f(x)` nonzero and `x ≠ y`. -/
theorem sign_change_ne {F : α → α} {x y : α} (hxy : F x * F y < 0) :
    F y - F x ≠ 0 ∧ x ≠ y := by
  constructor
  · intro h0
    have : F y = F x := by linarith
    rw [this] at hxy
    exact absurd hxy (not_lt.mpr (mul_self_nonneg _))
  · rintro rfl
    exact absurd hxy (not_lt.mpr (mul_self_nonneg _))

/-- An iteration of the loop of `regula_falsi` returns the new point or goes on from the
updated bracket. -/
theorem regulaFalsiLoop_succ (f : Dbl α → Dbl α) (fuel : Nat) (a b : Dbl α) :
    regulaFalsiLoop f (fuel + 1) a b =
      if Dbl.lt (Dbl.abs (f (a - (f a * (b - a)) / (f b - f a)))) tolerance then
        some (Outcome.success (a - (f a * (b - a)) / (f b - f a)))
      else regulaFalsiLoop f fuel (regulaFalsiUpdate f (a, b)).1
        (regulaFalsiUpdate f (a, b)).2 := by
  simp only [regulaFalsiLoop, regulaFalsiUpdate]
  split_ifs <;> rfl

/-- The update of a finite bracket with `f(b) - f(a)` not zero, for a number-valued
`f`. -/
theorem regulaFalsiUpdate_fin (f : Dbl α → Dbl α) (F : α → α)
    (hf : ∀ x, f (fin x) = fin (F x)) (a b : α) (hab : F b - F a ≠ 0) :
    regulaFalsiUpdate f (fin a, fin b) =
      if F a * F (a - F a * (b - a) / (F b - F a)) < 0 then
        (fin a, fin (a - F a * (b - a) / (F b - F a)))
      else (fin (a - F a * (b - a) / (F b - F a)), fin b) := by
  simp only [regulaFalsiUpdate, Dbl.fin_sub_fin, Dbl.fin_div_fin_of_ne _ hab, hf,
    Dbl.fin_mul_fin, Dbl.lt_fin_fin, decide_eq_true_eq]

/-- One iteration of `regula_falsi` on a finite bracket with a sign change: the division
is by a nonzero number, the new point lies strictly inside the bracket, and if the
iteration does not return the new bracket lies in the old one and has a sign change. -/
theorem regulaFalsiUpdate_invariant (f : Dbl α → Dbl α) (F : α → α)
    (hf : ∀ x, f (fin x) = fin (F x)) (x y : α) (hxy : F x * F y < 0) :
    F y - F x ≠ 0 ∧
    min x y < x - F x * (y - x) / (F y - F x) ∧
    x - F x * (y - x) / (F y - F x) < max x y ∧
    (¬|F (x - F x * (y - x) / (F y - F x))| < 1 / 1000000 →
      ∃ a' b', regulaFalsiUpdate f (fin x, fin y) = (fin a', fin b') ∧
        F a' * F b' < 0 ∧ min x y ≤ min a' b' ∧ max a' b' ≤ max x y ∧
        ∀ fuel, regulaFalsiLoop f (fuel + 1) (fin x) (fin y) =
          regulaFalsiLoop f fuel (fin a') (fin b')) := by
  obtain ⟨hne, hxy'⟩ := sign_change_ne hxy
  obtain ⟨hc1, hc2⟩ := falsi_point_inside hxy hxy'
  refine ⟨hne, hc1, hc2, fun hc => ?_⟩
  have hcz : F (x - F x * (y - x) / (F y - F x)) ≠ 0 := by
    intro h0
    rw [h0, abs_zero] at hc
    exact hc (by norm_num)
  have htest : Dbl.lt (Dbl.abs (f (fin x - (f (fin x) * (fin y - fin x)) /
      (f (fin y) - f (fin x))))) tolerance = false := by
    simpa [Dbl.fin_div_fin_of_ne _ hne, hf, tolerance] using hc
  by_cases h2 : F x * F (x - F x * (y - x) / (F y - F x)) < 0
  · refine ⟨x, _, by rw [regulaFalsiUpdate_fin f F hf x y hne, if_pos h2], h2, ?_, ?_, ?_⟩
    · exact le_min (min_le_left x y) hc1.le
    · exact max_le (le_max_left x y) hc2.le
    · intro fuel
      rw [regulaFalsiLoop_succ, htest, regulaFalsiUpdate_fin f F hf x y hne, if_pos h2]
      simp
  · refine ⟨_, y, by rw [regulaFalsiUpdate_fin f F hf x y hne, if_neg h2],
      sign_change_right hxy hcz h2, ?_, ?_, ?_⟩
    · exact le_min hc1.le (min_le_right x y)
    · exact max_le hc2.le (le_max_right x y)
    · intro fuel
      rw [regulaFalsiLoop_succ, htest, regulaFalsiUpdate_fin f F hf x y hne, if_neg h2]
      simp

/-- From a finite bracket with a sign change inside `[lo, hi]`, a root returned by the
loop of `regula_falsi` lies strictly inside `[lo, hi]`. -/
theorem regulaFalsiLoop_root_inside (f : Dbl α → Dbl α) (F : α → α)
    (hf : ∀ x, f (fin x) = fin (F x)) (lo hi : α) (root : Dbl α) (fuel : Nat) :
    ∀ x y : α, F x * F y < 0 → lo ≤ min x y → max x y ≤ hi →
      regulaFalsiLoop f fuel (fin x) (fin y) = some (Outcome.success root) →
      ∃ r, root = fin r ∧ lo < r ∧ r < hi := by
  induction fuel with
  | zero => intro x y _ _ _ h; simp [regulaFalsiLoop] at h
  | succ k ih =>
    intro x y hxy hlo hhi h
    obtain ⟨hne, hc1, hc2, hnext⟩ := regulaFalsiUpdate_invariant f F hf x y hxy
    by_cases hc : |F (x - F x * (y - x) / (F y - F x))| < 1 / 1000000
    · rw [regulaFalsiLoop_fin f F hf _ _ _ hne, if_pos hc] at h
      exact ⟨_, by simpa using (Option.some.inj h).symm, lt_of_le_of_lt hlo hc1,
        lt_of_lt_of_le hc2 hhi⟩
    · obtain ⟨a', b', _, hsign, hmin, hmax, hloop⟩ := hnext hc
      rw [hloop k] at h
      exact ih a' b' hsign (le_trans hlo hmin) (le_trans hmax hhi) h

/-- C15, in exact arithmetic: for a number-valued `f` and finite numbers `a`, `b` with
`f(a)*f(b) < 0`: at every iteration of `regula_falsi` (after any number of iterations
that did not return) the bracket has a sign change, `f(b) - f(a)` is not zero and the
point `c = a - f(a)*(b-a)/(f(b)-f(a))` lies strictly between the current `a` and `b`,
which lie between the original ones; so a root that is returned lies strictly between
the original endpoints. -/
theorem regula_falsi_point_inside_bracket (f : Dbl α → Dbl α) (F : α → α)
    (hf : ∀ x, f (fin x) = fin (F x)) (a b : α) (hab : F a * F b < 0) :
    (∀ n, (∀ m, m < n →
        Dbl.lt (Dbl.abs (f (regulaFalsiPoint f (fin a) (fin b) m))) tolerance = false) →
      ∃ x y, regulaFalsiBracket f (fin a) (fin b) n = (fin x, fin y) ∧
        F x * F y < 0 ∧ F y - F x ≠ 0 ∧
        regulaFalsiPoint f (fin a) (fin b) n = fin (x - F x * (y - x) / (F y - F x)) ∧
        min x y < x - F x * (y - x) / (F y - F x) ∧
        x - F x * (y - x) / (F y - F x) < max x y ∧
        min a b ≤ min x y ∧ max x y ≤ max a b ∧
        ∀ fuel, regulaFalsiLoop f (fuel + n) (fin a) (fin b) =
          regulaFalsiLoop f fuel (fin x) (fin y)) ∧
    (∀ fuel root, regula_falsi fuel f (fin a) (fin b) = some (Outcome.success root) →
      ∃ r, root = fin r ∧ min a b < r ∧ r < max a b) := by
  have point : ∀ (n : Nat) (x y : α), regulaFalsiBracket f (fin a) (fin b) n = (fin x, fin y) →
      F y - F x ≠ 0 →
      regulaFalsiPoint f (fin a) (fin b) n = fin (x - F x * (y - x) / (F y - F x)) := by
    intro n x y hbr hne
    simp only [regulaFalsiPoint, hbr, hf, Dbl.fin_sub_fin, Dbl.fin_mul_fin,
      Dbl.fin_div_fin_of_ne _ hne]
  constructor
  · intro n
    induction n with
    | zero =>
      intro _
      obtain ⟨hne, hc1, hc2, _⟩ := regulaFalsiUpdate_invariant f F hf a b hab
      exact ⟨a, b, rfl, hab, hne, point 0 a b rfl hne, hc1, hc2, le_rfl, le_rfl,
        fun fuel => rfl⟩
    | succ n ih =>
      intro hmid
      obtain ⟨x, y, hbr, hxy, hne, hpt, _, _, hmin, hmax, hloop⟩ :=
        ih (fun m hm => hmid m (Nat.lt_succ_of_lt hm))
      have hc : ¬|F (x - F x * (y - x) / (F y - F x))| < 1 / 1000000 := by
        have := hmid n (Nat.lt_succ_self n)
        simpa [hpt, hf, tolerance] using this
      obtain ⟨_, _, _, hnext⟩ := regulaFalsiUpdate_invariant f F hf x y hxy
      obtain ⟨a', b', hup, hsign, hmin', hmax', hloop'⟩ := hnext hc
      obtain ⟨hne', hc1', hc2', _⟩ := regulaFalsiUpdate_invariant f F hf a' b' hsign
      have hbr' : regulaFalsiBracket f (fin a) (fin b) (n + 1) = (fin a', fin b') := by
        rw [regulaFalsiBracket, Function.iterate_succ_apply', ← regulaFalsiBracket, hbr, hup]
      refine ⟨a', b', hbr', hsign, hne', point (n + 1) a' b' hbr' hne', hc1', hc2',
        le_trans hmin hmin', le_trans hmax' hmax, fun fuel => ?_⟩
      rw [show fuel + (n + 1) = fuel + 1 + n by omega, hloop (fuel + 1), hloop' fuel]
  · intro fuel root h
    rw [regula_falsi_fin f F hf, if_neg (not_le.mpr hab)] at h
    exact regulaFalsiLoop_root_inside f F hf (min a b) (max a b) root fuel a b hab
      le_rfl le_rfl h

/-- A case of C15: `f(x) = x - 2` on `[0, 10]` returns the root 2 on its first
iteration, strictly between 0 and 10. -/
theorem regula_falsi_point_inside_bracket_witness :
    ∃ r : ℚ, (fin 2 : Dbl ℚ) = fin r ∧ min 0 10 < r ∧ r < max 0 10 :=
  (regula_falsi_point_inside_bracket (fun x : Dbl ℚ => x - fin 2) (fun x => x - 2)
    (fun x => by simp) 0 10 (by norm_num)).2 1 (fin 2) (by
      have hf : ∀ x : ℚ, (fun x : Dbl ℚ => x - fin 2) (fin x) = fin (x - 2) :=
        fun x => by simp
      rw [regula_falsi_fin _ _ hf, if_neg (by norm_num),
        regulaFalsiLoop_fin_done _ _ hf 0 0 10 2 (by norm_num) (by norm_num)
          (by norm_num [abs_lt])])

/-! ## The open methods: the guess and the bounds -/

/-- One iteration of the loop of `secant` on finite values with `f(d) - f(c)` not
zero. -/
theorem secantLoop_fin (f : Dbl α → Dbl α) (F : α → α) (hf : ∀ x, f (fin x) = fin (F x))
    (fuel : Nat) (a b c d : α) (hcd : F d - F c ≠ 0) :
    secantLoop f (fin a) (fin b) (fuel + 1) (fin c) (fin d) =
      if d - F d * (d - c) / (F d - F c) < a ∨ b < d - F d * (d - c) / (F d - F c) then
        some Outcome.failure
      else if |d - F d * (d - c) / (F d - F c) - d| < 1 / 1000000 then
        some (Outcome.success (fin (d - F d * (d - c) / (F d - F c))))
      else secantLoop f (fin a) (fin b) fuel (fin d) (fin (d - F d * (d - c) / (F d - F c))) := by
  simp only [secantLoop, Dbl.fin_sub_fin, Dbl.fin_mul_fin, Dbl.fin_div_fin_of_ne _ hcd, hf,
    Dbl.abs_fin, tolerance, Dbl.lt_fin_fin, Dbl.gt_fin_fin, Bool.or_eq_true,
    decide_eq_true_eq]

/-- An iteration of the loop of `secant` that goes on from the new iterate `r`. -/
theorem secantLoop_fin_next (f : Dbl α → Dbl α) (F : α → α)
    (hf : ∀ x, f (fin x) = fin (F x)) (fuel : Nat) (a b c d r : α) (hcd : F d - F c ≠ 0)
    (hr : d - F d * (d - c) / (F d - F c) = r) (h1 : ¬(r < a ∨ b < r))
    (h2 : ¬|r - d| < 1 / 1000000) :
    secantLoop f (fin a) (fin b) (fuel + 1) (fin c) (fin d) =
      secantLoop f (fin a) (fin b) fuel (fin d) (fin r) := by
  rw [secantLoop_fin f F hf _ _ _ _ _ hcd, hr, if_neg h1, if_neg h2]

/-- An iteration of the loop of `secant` that returns the new iterate `r`. -/
theorem secantLoop_fin_done (f : Dbl α → Dbl α) (F : α → α)
    (hf : ∀ x, f (fin x) = fin (F x)) (fuel : Nat) (a b c d r : α) (hcd : F d - F c ≠ 0)
    (hr : d - F d * (d - c) / (F d - F c) = r) (h1 : ¬(r < a ∨ b < r))
    (h2 : |r - d| < 1 / 1000000) :
    secantLoop f (fin a) (fin b) (fuel + 1) (fin c) (fin d) =
      some (Outcome.success (fin r)) := by
  rw [secantLoop_fin f F hf _ _ _ _ _ hcd, hr, if_neg h1, if_pos h2]

/-- C16: `newton_raphson` and `secant` do not test the guess `c` against `[a, b]`: with
`f(x) = x - 2`, `g(x) = 1`, `a = 0`, `b = 10` and the guess `c = 100`, which the range
test would reject, both return success with root 2 (on their second iteration, and so
with any fuel of at least 2). -/
theorem open_methods_accept_guess_outside_range :
    outside (fin 0) (fin 10) (fin 100 : Dbl ℚ) = true ∧
    (∀ fuel, 2 ≤ fuel →
      newton_raphson (fun x : Dbl ℚ => x - fin 2) (fun _ => fin 1) (fin 0) (fin 10) fuel
        (fin 100) = some (Outcome.success (fin 2))) ∧
    (∀ fuel, 2 ≤ fuel →
      secant fuel (fun x : Dbl ℚ => x - fin 2) (fin 0) (fin 10) (fin 100) =
        some (Outcome.success (fin 2))) := by
  have hf : ∀ x : ℚ, (fun x : Dbl ℚ => x - fin 2) (fin x) = fin (x - 2) := fun x => by simp
  have hg : ∀ x : ℚ, (fun _ : Dbl ℚ => (fin 1 : Dbl ℚ)) (fin x) = fin ((fun _ => 1) x) :=
    fun x => rfl
  refine ⟨by norm_num [outside], ?_, ?_⟩
  · intro fuel hfuel
    obtain ⟨k, rfl⟩ := Nat.exists_eq_add_of_le hfuel
    rw [Nat.add_comm 2 k]
    rw [newton_raphson_fin_next _ _ _ _ hf hg _ _ _ 100 2 (by norm_num) (by norm_num)
      (by norm_num) (by norm_num [abs_lt])]
    rw [newton_raphson_fin_done _ _ _ _ hf hg _ _ _ 2 2 (by norm_num) (by norm_num)
      (by norm_num) (by norm_num [abs_lt])]
  · intro fuel hfuel
    obtain ⟨k, rfl⟩ := Nat.exists_eq_add_of_le hfuel
    have hd : (fin 100 + tolerance : Dbl ℚ) = fin (100000001 / 1000000) := by
      norm_num [tolerance]
    rw [Nat.add_comm 2 k, secant, hd]
    rw [secantLoop_fin_next _ _ hf _ _ _ 100 (100000001 / 1000000) 2 (by norm_num)
      (by norm_num) (by norm_num) (by norm_num [abs_lt])]
    rw [secantLoop_fin_done _ _ hf _ _ _ (100000001 / 1000000) 2 2 (by norm_num)
      (by norm_num) (by norm_num) (by norm_num [abs_lt])]

/-- With `a > b` every number fails the range test. -/
theorem outside_of_inverted (a b : Dbl α) (r : α) (hab : Dbl.gt a b = true) :
    (Dbl.lt (fin r) a || Dbl.gt (fin r) b) = true := by
  cases a <;> cases b <;> simp_all [Dbl.lt, Dbl.gt]
  rename_i x y
  by_contra h
  push_neg at h
  exact absurd (lt_of_lt_of_le hab (le_trans h.1 h.2)) (lt_irrefl _)

/-- C17: with inverted bounds `a > b`, for every `f`, `g` and guess `c` whose first
iterate is a number, `newton_raphson` and `secant` return failure on the first
iteration (one iteration of fuel is enough), and no root is written. -/
theorem inverted_bounds_fail_first_iteration (f g : Dbl α → Dbl α) (a b c : Dbl α) (r : α)
    (hab : Dbl.gt a b = true) :
    (c - f c / g c = fin r →
      ∀ fuel, newton_raphson f g a b (fuel + 1) c = some Outcome.failure) ∧
    ((c + tolerance) - f (c + tolerance) * ((c + tolerance) - c) /
        (f (c + tolerance) - f c) = fin r →
      ∀ fuel, secant (fuel + 1) f a b c = some Outcome.failure) := by
  have hout := outside_of_inverted a b r hab
  constructor
  · intro hr fuel
    simp only [newton_raphson, hr, hout, if_true]
  · intro hr fuel
    simp only [secant, secantLoop, hr, hout, if_true]

/-- A case of C17: `f(x) = x - 2`, `g(x) = 1`, bounds `a = 10 > b = 0` and guess `c = 3`,
whose first iterate is 2: `newton_raphson` returns failure on the first iteration. -/
theorem inverted_bounds_fail_witness :
    newton_raphson (fun x : Dbl ℚ => x - fin 2) (fun _ => fin 1) (fin 10) (fin 0) 1 (fin 3) =
      some Outcome.failure :=
  (inverted_bounds_fail_first_iteration (fun x : Dbl ℚ => x - fin 2) (fun _ => fin 1)
    (fin 10) (fin 0) (fin 3) 2 (by norm_num)).1 (by norm_num) 0

/-! ## Affine functions in exact arithmetic -/

/-- C18: in exact arithmetic, for `f(x) = m*x + k` with `m ≠ 0` whose zero `-k/m` lies
in `[a, b]`, and every guess `c`, the first iterate of `secant` is `-k/m`, and
`secant(f, a, b, c)` returns success with root `-k/m` within two iterations (any fuel of
at least 2 is enough). -/
theorem secant_affine_exact (f : Dbl α → Dbl α) (m k a b c : α)
    (hf : ∀ x, f (fin x) = fin (m * x + k)) (hm : m ≠ 0) (ha : a ≤ -k / m)
    (hb : -k / m ≤ b) :
    secantSeq f (fin c) 2 = fin (-k / m) ∧
    ∀ fuel, 2 ≤ fuel →
      secant fuel f (fin a) (fin b) (fin c) = some (Outcome.success (fin (-k / m))) := by
  have htol : (0 : α) < 1 / 1000000 := by norm_num
  have hd : (fin c + tolerance : Dbl α) = fin (c + 1 / 1000000) := rfl
  have hcd : m * (c + 1 / 1000000) + k - (m * c + k) ≠ 0 := by
    have : m * (c + 1 / 1000000) + k - (m * c + k) = m * (1 / 1000000) := by ring
    rw [this]
    exact mul_ne_zero hm htol.ne'
  have hr : c + 1 / 1000000 - (m * (c + 1 / 1000000) + k) * (c + 1 / 1000000 - c) /
      (m * (c + 1 / 1000000) + k - (m * c + k)) = -k / m := by
    have h1 : c + 1 / 1000000 - c = 1 / 1000000 := by ring
    have h2 : m * (c + 1 / 1000000) + k - (m * c + k) = m * (1 / 1000000) := by ring
    rw [h1, h2, mul_div_mul_right _ _ htol.ne']
    field_simp
    ring
  have hin : ¬(-k / m < a ∨ b < -k / m) := by
    push_neg
    exact ⟨ha, hb⟩
  constructor
  · show secantSeqFrom f (fin c) (fin c + tolerance) 2 = _
    rw [hd]
    show fin (c + 1 / 1000000) - f (fin (c + 1 / 1000000)) *
      (fin (c + 1 / 1000000) - fin c) / (f (fin (c + 1 / 1000000)) - f (fin c)) = _
    rw [hf, hf, Dbl.fin_sub_fin, Dbl.fin_mul_fin, Dbl.fin_sub_fin,
      Dbl.fin_div_fin_of_ne _ hcd, Dbl.fin_sub_fin, hr]
  · intro fuel hfuel
    obtain ⟨j, rfl⟩ := Nat.exists_eq_add_of_le hfuel
    rw [Nat.add_comm 2 j, secant, hd]
    by_cases hstep : |-k / m - (c + 1 / 1000000)| < 1 / 1000000
    · exact secantLoop_fin_done f _ hf _ a b c _ _ hcd hr hin hstep
    · rw [secantLoop_fin_next f _ hf _ a b c _ _ hcd hr hin hstep]
      have hne : -k / m ≠ c + 1 / 1000000 := by
        intro h
        rw [h, sub_self, abs_zero] at hstep
        exact hstep htol
      have hcd2 : m * (-k / m) + k - (m * (c + 1 / 1000000) + k) ≠ 0 := by
        have : m * (-k / m) + k - (m * (c + 1 / 1000000) + k)
            = m * (-k / m - (c + 1 / 1000000)) := by ring
        rw [this]
        exact mul_ne_zero hm (sub_ne_zero.mpr hne)
      have hzero : m * (-k / m) + k = 0 := by
        field_simp
        ring
      have hr2 : -k / m - (m * (-k / m) + k) * (-k / m - (c + 1 / 1000000)) /
          (m * (-k / m) + k - (m * (c + 1 / 1000000) + k)) = -k / m := by
        rw [hzero, zero_mul, zero_div, sub_zero]
      exact secantLoop_fin_done f _ hf _ a b _ _ _ hcd2 hr2 hin
        (by rw [sub_self, abs_zero]; exact htol)

/-- A case of C18: `f(x) = 2x - 4` on `[0, 10]` with guess 7 returns the root 2. -/
theorem secant_affine_exact_witness :
    secant 2 (fun x : Dbl ℚ => fin 2 * x + fin (-4)) (fin 0) (fin 10) (fin 7) =
      some (Outcome.success (fin (-(-4) / 2))) :=
  (secant_affine_exact (fun x : Dbl ℚ => fin 2 * x + fin (-4)) 2 (-4) 0 10 7
    (fun x => by simp) (by norm_num) (by norm_num) (by norm_num)).2 2 le_rfl

/-- C19: in exact arithmetic, for `f(x) = m*x + k` and every `a`, `b` with
`f(a)*f(b) < 0` (which makes `m ≠ 0`), `regula_falsi(f, a, b)` returns success on its
first iteration (any fuel of at least 1 is enough) with root `-k/m`: the first
interpolation point is the zero of `f`. -/
theorem regula_falsi_affine_exact (f : Dbl α → Dbl α) (m k a b : α)
    (hf : ∀ x, f (fin x) = fin (m * x + k)) (hab : (m * a + k) * (m * b + k) < 0) :
    m ≠ 0 ∧
    a - (m * a + k) * (b - a) / (m * b + k - (m * a + k)) = -k / m ∧
    ∀ fuel, 1 ≤ fuel →
      regula_falsi fuel f (fin a) (fin b) = some (Outcome.success (fin (-k / m))) := by
  have hm : m ≠ 0 := by
    rintro rfl
    simp only [zero_mul, zero_add] at hab
    exact absurd hab (not_lt.mpr (mul_self_nonneg k))
  obtain ⟨hne, hxy⟩ := sign_change_ne (F := fun x => m * x + k) hab
  have hba : b - a ≠ 0 := sub_ne_zero.mpr (Ne.symm hxy)
  have hc : a - (m * a + k) * (b - a) / (m * b + k - (m * a + k)) = -k / m := by
    have : m * b + k - (m * a + k) = m * (b - a) := by ring
    rw [this]
    field_simp
    ring
  refine ⟨hm, hc, fun fuel hfuel => ?_⟩
  obtain ⟨j, rfl⟩ := Nat.exists_eq_add_of_le hfuel
  rw [Nat.add_comm 1 j, regula_falsi_fin f _ hf, if_neg (not_le.mpr hab)]
  refine regulaFalsiLoop_fin_done f _ hf j a b _ hne hc ?_
  have hzero : m * (-k / m) + k = 0 := by
    field_simp
    ring
  rw [hzero, abs_zero]
  norm_num

/-- A case of C19: `f(x) = 2x - 4` on `[0, 10]` returns the root 2 on the first
iteration. -/
theorem regula_falsi_affine_exact_witness :
    regula_falsi 1 (fun x : Dbl ℚ => fin 2 * x + fin (-4)) (fin 0) (fin 10) =
      some (Outcome.success (fin (-(-4) / 2))) :=
  (regula_falsi_affine_exact (fun x : Dbl ℚ => fin 2 * x + fin (-4)) 2 (-4) 0 10
    (fun x => by simp) (by norm_num)).2.2 1 le_rfl

/-! ## The bracketing methods on binary64 -/

namespace B64

/-- An iteration of the binary64 loop of `bisection` returns the midpoint or goes on
from the updated bracket. -/
theorem b64_bisectionLoop_succ (f : B64 → B64) (fuel : Nat) (a b : B64) :
    bisectionLoop f (fuel + 1) a b =
      if lt (abs (f (bisectionPoint (a, b)))) tolerance then
        some (Outcome.success (bisectionPoint (a, b)))
      else bisectionLoop f fuel (bisectionUpdate f (a, b)).1 (bisectionUpdate f (a, b)).2 := by
  simp only [bisectionLoop, bisectionUpdate, bisectionPoint]
  split_ifs <;> rfl

/-- An iteration of the binary64 loop of `regula_falsi` returns the new point or goes on
from the updated bracket. -/
theorem b64_regulaFalsiLoop_succ (f : B64 → B64) (fuel : Nat) (a b : B64) :
    regulaFalsiLoop f (fuel + 1) a b =
      if lt (abs (f (regulaFalsiPoint f (a, b)))) tolerance then
        some (Outcome.success (regulaFalsiPoint f (a, b)))
      else regulaFalsiLoop f fuel (regulaFalsiUpdate f (a, b)).1
        (regulaFalsiUpdate f (a, b)).2 := by
  simp only [regulaFalsiLoop, regulaFalsiUpdate, regulaFalsiPoint]
  split_ifs <;> rfl

/-- A fuel-indexed loop that steps by `upd` while `test` is false: if the first `n`
iterations did not return, what remains is the loop from the `n`-th state. -/
theorem b64_loop_skip {σ β : Type} (loop : Nat → σ → Option β) (test : σ → Bool)
    (ret : σ → β) (upd : σ → σ)
    (hstep : ∀ fuel s, loop (fuel + 1) s =
      if test s then some (ret s) else loop fuel (upd s)) (n : Nat) :
    ∀ s, loop n s = none → ∀ k, loop (k + n) s = loop k (upd^[n] s) := by
  induction n with
  | zero => intro s _ k; rfl
  | succ n ih =>
    intro s hs k
    rw [hstep] at hs
    have ht : test s = false := by
      by_contra h
      rw [if_pos (by simpa using h)] at hs
      cases hs
    rw [ht] at hs
    rw [show k + (n + 1) = k + n + 1 by omega, hstep, ht, Function.iterate_succ_apply]
    exact ih (upd s) (by simpa using hs) k

/-- A fuel-indexed loop at a state where `test` is false and that `upd` leaves in place
does not return. -/
theorem b64_loop_stuck {σ β : Type} (loop : Nat → σ → Option β) (test : σ → Bool)
    (ret : σ → β) (upd : σ → σ) (h0 : ∀ s, loop 0 s = none)
    (hstep : ∀ fuel s, loop (fuel + 1) s =
      if test s then some (ret s) else loop fuel (upd s))
    (s : σ) (ht : test s = false) (hfix : upd s = s) (k : Nat) : loop k s = none := by
  induction k with
  | zero => exact h0 s
  | succ k ih => rw [hstep, ht, hfix]; simpa using ih

/-- A fuel-indexed loop that returned keeps its result with more fuel. -/
theorem b64_loop_mono {σ β : Type} (loop : Nat → σ → Option β) (test : σ → Bool)
    (ret : σ → β) (upd : σ → σ) (h0 : ∀ s, loop 0 s = none)
    (hstep : ∀ fuel s, loop (fuel + 1) s =
      if test s then some (ret s) else loop fuel (upd s)) (n k : Nat) :
    ∀ s out, loop n s = some out → loop (n + k) s = some out := by
  induction n with
  | zero => intro s out h; rw [h0] at h; cases h
  | succ n ih =>
    intro s out h
    rw [show n + 1 + k = n + k + 1 by omega, hstep]
    rw [hstep] at h
    split_ifs at h ⊢ with ht
    · exact h
    · exact ih (upd s) out h

/-- A fuel-indexed loop that has not returned after `n` iterations and is then at a
state where `test` is false and that `upd` leaves in place never returns. -/
theorem b64_loop_never {σ β : Type} (loop : Nat → σ → Option β) (test : σ → Bool)
    (ret : σ → β) (upd : σ → σ) (h0 : ∀ s, loop 0 s = none)
    (hstep : ∀ fuel s, loop (fuel + 1) s =
      if test s then some (ret s) else loop fuel (upd s))
    (n : Nat) (s t : σ) (hn : loop n s = none) (hs : upd^[n] s = t)
    (ht : test t = false) (hfix : upd t = t) (fuel : Nat) : loop fuel s = none := by
  cases h : loop fuel s with
  | none => rfl
  | some out =>
    have h1 := b64_loop_mono loop test ret upd h0 hstep fuel n s out h
    rw [b64_loop_skip loop test ret upd hstep n s hn fuel, hs,
      b64_loop_stuck loop test ret upd h0 hstep t ht hfix fuel] at h1
    cases h1

/-- The binary64 loop of `bisection` never returns from a bracket that, after `n`
iterations without return, reaches a bracket which the update leaves in place and
whose midpoint fails the tolerance test. -/
theorem b64_bisectionLoop_never (f : B64 → B64) (n : Nat) (a b : B64) (t : B64 × B64)
    (hn : bisectionLoop f n a b = none) (hs : (bisectionUpdate f)^[n] (a, b) = t)
    (ht : lt (abs (f (bisectionPoint t))) tolerance = false)
    (hfix : bisectionUpdate f t = t) (fuel : Nat) : bisectionLoop f fuel a b = none :=
  b64_loop_never (fun k s => bisectionLoop f k s.1 s.2)
    (fun s => lt (abs (f (bisectionPoint s))) tolerance)
    (fun s => Outcome.success (bisectionPoint s)) (bisectionUpdate f) (fun _ => rfl)
    (fun k s => b64_bisectionLoop_succ f k s.1 s.2) n (a, b) t hn hs ht hfix fuel

/-- The binary64 loop of `regula_falsi` never returns from a bracket that, after `n`
iterations without return, reaches a bracket which the update leaves in place and
whose new point fails the tolerance test. -/
theorem b64_regulaFalsiLoop_never (f : B64 → B64) (n : Nat) (a b : B64) (t : B64 × B64)
    (hn : regulaFalsiLoop f n a b = none) (hs : (regulaFalsiUpdate f)^[n] (a, b) = t)
    (ht : lt (abs (f (regulaFalsiPoint f t))) tolerance = false)
    (hfix : regulaFalsiUpdate f t = t) (fuel : Nat) : regulaFalsiLoop f fuel a b = none :=
  b64_loop_never (fun k s => regulaFalsiLoop f k s.1 s.2)
    (fun s => lt (abs (f (regulaFalsiPoint f s))) tolerance)
    (fun s => Outcome.success (regulaFalsiPoint f s)) (regulaFalsiUpdate f) (fun _ => rfl)
    (fun k s => b64_regulaFalsiLoop_succ f k s.1 s.2) n (a, b) t hn hs ht hfix fuel

end B64

/-! ## Where binary64 departs from exact arithmetic -/

set_option maxRecDepth 1000000 in
/-- Against C1 as stated: on binary64, `f(x) = 1e12 * (x*x - 2)` on `[1, 2]` passes the
entry test of `bisection` (`f(1) * f(2) < 0`), and the call never returns: after 52
iterations the bracket is the pair of neighbouring doubles around the square root of
2, its midpoint rounds to its left end, where `|f|` is about `4.4e-4`, and the update
leaves the bracket as it is. -/
theorem bisection_binary64_never_returns :
    B64.lt (B64.mul (B64.steepSquare (B64.ofNat 1)) (B64.steepSquare (B64.ofNat 2)))
      (B64.ofNat 0) = true ∧
    ∀ fuel, B64.bisection fuel B64.steepSquare (B64.ofNat 1) (B64.ofNat 2) = none := by
  refine ⟨by decide!, fun fuel => ?_⟩
  have hentry : B64.ge (B64.mul (B64.steepSquare (B64.ofNat 1))
      (B64.steepSquare (B64.ofNat 2))) (B64.ofNat 0) = false := by decide!
  rw [B64.bisection, hentry]
  exact B64.b64_bisectionLoop_never B64.steepSquare 52 _ _
    (B64.fin false 6369051672525772 1022, B64.fin false 6369051672525773 1022)
    (by decide!) (by decide!) (by decide!) (by decide!) fuel

set_option maxRecDepth 1000000 in
/-- Against C2 as stated: on binary64, `f(x) = 1e12 * (x*x - 2)` on `[1, 2]` passes the
entry test of `regula_falsi`, and the call never returns: after 21 iterations the
bracket is the pair of neighbouring doubles around the square root of 2, the new point
rounds to its left end, and the update leaves the bracket as it is. -/
theorem regula_falsi_binary64_never_returns :
    B64.lt (B64.mul (B64.steepSquare (B64.ofNat 1)) (B64.steepSquare (B64.ofNat 2)))
      (B64.ofNat 0) = true ∧
    ∀ fuel, B64.regula_falsi fuel B64.steepSquare (B64.ofNat 1) (B64.ofNat 2) = none := by
  refine ⟨by decide!, fun fuel => ?_⟩
  have hentry : B64.ge (B64.mul (B64.steepSquare (B64.ofNat 1))
      (B64.steepSquare (B64.ofNat 2))) (B64.ofNat 0) = false := by decide!
  rw [B64.regula_falsi, hentry]
  exact B64.b64_regulaFalsiLoop_never B64.steepSquare 21 _ _
    (B64.fin false 6369051672525772 1022, B64.fin false 6369051672525773 1022)
    (by decide!) (by decide!) (by decide!) (by decide!) fuel

set_option maxRecDepth 1000000 in
/-- Against C13 as stated: on binary64, `f(x) = x` on the bracket `[-2^-1070, 2^-4]` has
`f(a) * f(b) < 0`; the iteration does not return (the midpoint is `2^-5`), the product
`f(a) * f(c) = -2^-1075` rounds to `-0`, which is not `< 0`, so `a` is replaced, and the
new bracket `[2^-5, 2^-4]` has no sign change. -/
theorem bisection_binary64_loses_sign_change :
    B64.lt (B64.mul (B64.fin true 16 0) (B64.div (B64.ofNat 1) (B64.ofNat 16)))
      (B64.ofNat 0) = true ∧
    B64.bisectionLoop (fun x => x) 1 (B64.fin true 16 0)
      (B64.div (B64.ofNat 1) (B64.ofNat 16)) = none ∧
    B64.bisectionUpdate (fun x => x)
        (B64.fin true 16 0, B64.div (B64.ofNat 1) (B64.ofNat 16)) =
      (B64.div (B64.ofNat 1) (B64.ofNat 32), B64.div (B64.ofNat 1) (B64.ofNat 16)) ∧
    B64.lt (B64.mul (B64.div (B64.ofNat 1) (B64.ofNat 32))
      (B64.div (B64.ofNat 1) (B64.ofNat 16))) (B64.ofNat 0) = false := by
  decide!

set_option maxRecDepth 1000000 in
/-- Against C14 as stated.  On binary64, `f(x) = (x - 1) * 2^40 - 2^-24` on
`[1, 1 + 2^-52]` passes the entry test, the midpoint rounds to `1`, where
`|f| = 2^-24 < 1e-6`, and `bisection` returns success with root `1`, the endpoint `a`.
And in exact arithmetic with the endpoint `b = +inf`, `f(x) = 1e-7 - 1/x` on
`[0, +inf]` returns success with root `+inf`, the endpoint `b`. -/
theorem bisection_root_on_endpoint :
    (B64.bisection 1 B64.shiftedLine (B64.ofNat 1) B64.onePlusEps =
        some (B64.Outcome.success (B64.ofNat 1)) ∧
      B64.lt (B64.ofNat 1) (B64.ofNat 1) = false) ∧
    (bisection 1 (fun x : Dbl ℚ => fin (1 / 10000000) - fin 1 / x) (fin 0) pinf =
        some (Outcome.success pinf) ∧
      Dbl.lt (pinf : Dbl ℚ) pinf = false) := by
  refine ⟨by decide!, ?_, rfl⟩
  have h0 : (fin 1 / fin 0 : Dbl ℚ) = pinf := by
    rw [Dbl.fin_div_fin]; simp [Dbl.infOfSign]
  have h1 : (fin (1 / 10000000) - pinf : Dbl ℚ) = ninf := rfl
  have h2 : (fin 1 / pinf : Dbl ℚ) = fin 0 := rfl
  have h3 : (fin (1 / 10000000) - fin 0 : Dbl ℚ) = fin (1 / 10000000) := by simp
  have h4 : (ninf * fin (1 / 10000000) : Dbl ℚ) = ninf := by
    show Dbl.infOfSign (-(1 / 10000000 : ℚ)) = ninf
    norm_num [Dbl.infOfSign]
  have h5 : ((fin 0 + pinf) / fin 2 : Dbl ℚ) = pinf := by
    show Dbl.div pinf (fin 2) = pinf
    norm_num [Dbl.div]
  simp only [bisection, bisectionLoop, h0, h1, h2, h3, h4, h5]
  norm_num [Dbl.ge, Dbl.lt, Dbl.abs, tolerance, abs_lt]

set_option maxRecDepth 1000000 in
/-- Against C15 as stated.  On binary64, `f(x) = (x - 1) * 2^40 - 2^-24` on
`[1, 1 + 2^-52]` passes the entry test, the point `c = 1 + 2^-64` rounds to `1`, the
endpoint `a`, and `regula_falsi` returns success with root `1`.  And `f(x) = x` on
`[-2^600, 2^600]` passes the entry test (the product overflows to `-inf`), its first
point is `+inf`, and at the second iteration the division is `inf / inf`. -/
theorem regula_falsi_point_on_endpoint :
    (B64.regulaFalsiPoint B64.shiftedLine (B64.ofNat 1, B64.onePlusEps) = B64.ofNat 1 ∧
      B64.regula_falsi 1 B64.shiftedLine (B64.ofNat 1) B64.onePlusEps =
        some (B64.Outcome.success (B64.ofNat 1))) ∧
    (B64.lt (B64.mul (B64.neg (B64.ofNat (2 ^ 600))) (B64.ofNat (2 ^ 600))) (B64.ofNat 0)
        = true ∧
      B64.regulaFalsiPoint (fun x => x) (B64.neg (B64.ofNat (2 ^ 600)), B64.ofNat (2 ^ 600))
        = B64.inf false ∧
      B64.regulaFalsiUpdate (fun x => x)
          (B64.neg (B64.ofNat (2 ^ 600)), B64.ofNat (2 ^ 600)) =
        (B64.neg (B64.ofNat (2 ^ 600)), B64.inf false) ∧
      B64.div (B64.mul (B64.neg (B64.ofNat (2 ^ 600)))
          (B64.sub (B64.inf false) (B64.neg (B64.ofNat (2 ^ 600)))))
          (B64.sub (B64.inf false) (B64.neg (B64.ofNat (2 ^ 600)))) = B64.nan) := by
  decide!

set_option maxRecDepth 1000000 in
/-- The constants of the binary64 embedding: `tolerance` is `4722366482869645 * 2^-72`,
`2` is `2^52 * 2^-51`, and `1 + 2^-52` is `(2^52 + 1) * 2^-52`. -/
theorem b64_constants :
    B64.tolerance = B64.fin false 4722366482869645 1002 ∧
    B64.ofNat 2 = B64.fin false 4503599627370496 1023 ∧
    B64.ofNat 0 = B64.fin false 0 0 ∧
    B64.onePlusEps = B64.fin false 4503599627370497 1022 := by
  decide!

end Roots
